import Mathlib

/-!
Verification of the qlara incremental static regeneration pipeline
(route-pattern compiler/matcher, fallback-template key derivation,
on-demand renderer, forward-only edge decision function).

JavaScript strings are modeled as `List Char` (`JsStr`); each embedded
definition carries a doc comment naming the source function it translates.
JavaScript regex operations that the source applies to fixed pattern shapes
are modeled by explicit character scanners implementing the semantics of the
specific regexes the source constructs.
-/

namespace Qlara

/-- JavaScript strings, modeled as lists of characters. -/
abbrev JsStr := List Char

/-- Conversion from Lean string literals, for concrete instances. -/
def jstr (s : String) : JsStr := s.data

/-- The characters escaped by `pattern.replace(/[.*+?^$\x7b\x7d()|[\]\\]/g, '\\$&')`
in `patternToRegex` (routes.ts). -/
def jsRegexMetachars : List Char :=
  ['.', '*', '+', '?', '^', '$', '\x7b', '\x7d', '(', ')', '|', '[', ']', '\\']

/-- Model of JavaScript `s.split(sep)` for a one-character separator. -/
def jsSplit (sep : Char) : JsStr → List JsStr
  | [] => [[]]
  | c :: rest =>
    if c = sep then [] :: jsSplit sep rest
    else
      match jsSplit sep rest with
      | [] => [[c]]
      | g :: gs => (c :: g) :: gs

/-- Model of JavaScript array `join(sep)` for a one-character separator. -/
def jsJoin (sep : Char) (xs : List JsStr) : JsStr :=
  List.intercalate [sep] xs

/-- Model of JavaScript `s.replace(/^X/, '')` for a single character `X`:
drop one leading occurrence. -/
def dropOneLeading (x : Char) (s : JsStr) : JsStr :=
  match s with
  | [] => []
  | c :: rest => if c = x then rest else c :: rest

/-- Model of JavaScript `s.replace(/X$/, '')` for a single character `X`:
drop one trailing occurrence. -/
def dropOneTrailing (x : Char) (s : JsStr) : JsStr :=
  if s.getLast? = some x then s.dropLast else s

/-- Model of JavaScript `s.replace(/suf$/, '')` for a literal suffix `suf`:
drop one trailing occurrence of the suffix. -/
def dropOneTrailingSeq (suf : JsStr) (s : JsStr) : JsStr :=
  if suf.isSuffixOf s then s.take (s.length - suf.length) else s

/-- Model of JavaScript `s.startsWith(p)`. -/
def jsStartsWith (p : JsStr) (s : JsStr) : Bool := p.isPrefixOf s

/-- Model of JavaScript `s.endsWith(p)`. -/
def jsEndsWith (p : JsStr) (s : JsStr) : Bool := p.isSuffixOf s

/-- Does `pat` occur as a contiguous substring of `s`?  (Model of JavaScript
`s.includes(pat)` / regex-findability of a literal pattern.) -/
def containsSub (pat : JsStr) : JsStr → Bool
  | [] => pat.isPrefixOf []
  | c :: rest => pat.isPrefixOf (c :: rest) || containsSub pat rest

/-- Fuel-driven worker for `replaceAllSub`: at each position either the
pattern `p :: ps` matches (replace, resume after the match) or one character
is copied.  The fuel bounds the number of scanned positions; `s.length`
suffices since every step consumes at least one character. -/
def replaceAllSubFuel (p : Char) (ps rep : List Char) : Nat → JsStr → JsStr
  | _, [] => []
  | 0, s => s
  | fuel + 1, c :: rest =>
    if (p :: ps).isPrefixOf (c :: rest) then
      rep ++ replaceAllSubFuel p ps rep fuel ((c :: rest).drop (ps.length + 1))
    else
      c :: replaceAllSubFuel p ps rep fuel rest

/-- Model of JavaScript `s.replace(new RegExp(pat, 'g'), rep)` for a literal
(metacharacter-free) pattern `pat = p :: ps` and a replacement string without
`$`-escapes: leftmost-match, non-overlapping, global replacement. -/
def replaceAllSub (p : Char) (ps : List Char) (rep : JsStr) (s : JsStr) : JsStr :=
  replaceAllSubFuel p ps rep s.length s

end Qlara

namespace Qlara.Fallback

/-! Deploy-time fallback generator, from the fallback module bundled in
`packages/qlara/src/types.ts` (the `getFallbackKey` / `paramPlaceholder`
definitions). -/

/-- `export const FALLBACK_FILENAME = '_fallback.html'` -/
def FALLBACK_FILENAME : JsStr := jstr "_fallback.html"

/-- `paramPlaceholder(paramName)` (deploy-time copy):
`` `__QLARA_FALLBACK_${paramName}__` `` -/
def paramPlaceholder (paramName : JsStr) : JsStr :=
  jstr "__QLARA_FALLBACK_" ++ paramName ++ jstr "__"

/-- `getFallbackKey(routePattern)` (deploy-time copy):
strip one leading `/`, split on `/`, drop segments starting with `:`,
append `FALLBACK_FILENAME`, join with `/`. -/
def getFallbackKey (routePattern : JsStr) : JsStr :=
  let parts := jsSplit '/' (dropOneLeading '/' routePattern)
  let dirParts := parts.filter (fun p => ¬ jsStartsWith (jstr ":") p)
  jsJoin '/' (dirParts ++ [FALLBACK_FILENAME])

end Qlara.Fallback

namespace Qlara.Renderer

/-! Renderer Lambda, from `packages/qlara/src/provider/aws/s3.ts`
(the renderer document). -/

/-- `deriveS3Key(uri)` (renderer):
strip one leading `/`, strip one trailing `/`; empty → `index.html`;
already ending in `.html` → unchanged; else append `.html`. -/
def deriveS3Key (uri : JsStr) : JsStr :=
  let cleanUri := dropOneTrailing '/' (dropOneLeading '/' uri)
  if cleanUri = [] then jstr "index.html"
  else if jsEndsWith (jstr ".html") cleanUri then cleanUri
  else cleanUri ++ jstr ".html"

/-- `deriveFallbackKey(routePattern)` (renderer's inlined copy):
filters out dynamic segments and appends `_fallback.html`. -/
def deriveFallbackKey (routePattern : JsStr) : JsStr :=
  let parts := jsSplit '/' (dropOneLeading '/' routePattern)
  let dirParts := parts.filter (fun p => ¬ jsStartsWith (jstr ":") p)
  jsJoin '/' (dirParts ++ [jstr "_fallback.html"])

/-- `paramPlaceholder(paramName)` (renderer's inlined copy). -/
def paramPlaceholder (paramName : JsStr) : JsStr :=
  jstr "__QLARA_FALLBACK_" ++ paramName ++ jstr "__"

end Qlara.Renderer

namespace Qlara.Routes

/-! Route table, from `packages/qlara/src/routes.ts`. -/

/-- `extractParamNames(pattern)`: model of `pattern.match(/:([^/]+)/g)` mapped
through `m.slice(1)`.  The global regex scans left to right; at each `:` it
greedily takes the maximal nonempty run of non-`/` characters and records the
run (the match minus the leading `:`); scanning resumes after the run. -/
def extractParamNamesFuel : Nat → JsStr → List JsStr
  | _, [] => []
  | 0, _ => []
  | fuel + 1, c :: rest =>
    if c = ':' then
      let run := rest.takeWhile (· ≠ '/')
      if run = [] then extractParamNamesFuel fuel rest
      else run :: extractParamNamesFuel fuel (rest.drop run.length)
    else extractParamNamesFuel fuel rest

def extractParamNames (pattern : JsStr) : List JsStr :=
  extractParamNamesFuel pattern.length pattern

/-- The escaping pass of `patternToRegex`:
`pattern.replace(/[.*+?^$\x7b\x7d()|[\]\\]/g, '\\$&')`. -/
def escapeChars : JsStr → JsStr
  | [] => []
  | c :: rest =>
    (if c ∈ jsRegexMetachars then ['\\', c] else [c]) ++ escapeChars rest

/-- The text substituted for each dynamic segment: `([^/]+)`. -/
def groupChars : JsStr := jstr "([^/]+)"

/-- The substitution pass of `patternToRegex`:
`escaped.replace(/:([^/]+)/g, '([^/]+)')`.  Same scanning semantics as
`extractParamNames`, emitting `([^/]+)` in place of each match. -/
def replaceParamsWithGroupsFuel : Nat → JsStr → JsStr
  | _, [] => []
  | 0, s => s
  | fuel + 1, c :: rest =>
    if c = ':' then
      let run := rest.takeWhile (· ≠ '/')
      if run = [] then c :: replaceParamsWithGroupsFuel fuel rest
      else groupChars ++ replaceParamsWithGroupsFuel fuel (rest.drop run.length)
    else c :: replaceParamsWithGroupsFuel fuel rest

def replaceParamsWithGroups (escaped : JsStr) : JsStr :=
  replaceParamsWithGroupsFuel escaped.length escaped

/-- `patternToRegex(pattern)`: escape, substitute groups, anchor with `^`/`$`. -/
def patternToRegex (pattern : JsStr) : JsStr :=
  '^' :: (replaceParamsWithGroups (escapeChars pattern) ++ ['$'])

/-- An atom of the regexes `patternToRegex` produces: a literal character
(possibly written backslash-escaped) or the capture group `([^/]+)`. -/
inductive RItem where
  | lit (c : Char)
  | group
  deriving DecidableEq, Repr

/-- Parse the body of a generated regex (everything after `^`) into atoms.
The final bare `$` anchors the end; `\c` is a literal; `([^/]+)` is a capture
group; any other bare regex metacharacter is outside the generated fragment
and is rejected. -/
def parseItems : JsStr → Option (List RItem)
  | ['$'] => some []
  | '\\' :: c :: rest => (parseItems rest).map (RItem.lit c :: ·)
  | '(' :: '[' :: '^' :: '/' :: ']' :: '+' :: ')' :: rest =>
    (parseItems rest).map (RItem.group :: ·)
  | c :: rest =>
    if c ∈ jsRegexMetachars then none
    else (parseItems rest).map (RItem.lit c :: ·)
  | [] => none

/-- Parse a full generated regex `^...$`. -/
def parseRegex : JsStr → Option (List RItem)
  | '^' :: rest => parseItems rest
  | _ => none

/-- Greedy matching of one capture group `([^/]+)`: try the capture lengths
from the maximal run of non-`/` characters down to 1, taking the first length
for which the continuation succeeds (JavaScript greedy backtracking). -/
def tryGroup (cont : JsStr → Option (List JsStr)) : Nat → JsStr → Option (List JsStr)
  | 0, _ => none
  | k + 1, xs =>
    match cont (xs.drop (k + 1)) with
    | some caps => some (xs.take (k + 1) :: caps)
    | none => tryGroup cont k xs

/-- Anchored matching of a parsed regex against a string, returning the list
of captured substrings on success (JavaScript `str.match(regex)` for the
anchored fragment `patternToRegex` generates). -/
def matchItems : List RItem → JsStr → Option (List JsStr)
  | [], xs => if xs = [] then some [] else none
  | RItem.lit _ :: _, [] => none
  | RItem.lit c :: rs, x :: xs => if x = c then matchItems rs xs else none
  | RItem.group :: rs, xs =>
    tryGroup (matchItems rs) (xs.takeWhile (· ≠ '/')).length xs

/-- JavaScript `cleanUrl.match(new RegExp(route.regex))`, specialized to the
regex fragment generated by `patternToRegex`; `some caps` gives the captures
`match[1], match[2], ...`. -/
def jsMatch (regex : JsStr) (s : JsStr) : Option (List JsStr) :=
  (parseRegex regex).bind (fun items => matchItems items s)

/-- A manifest route entry (`ManifestRoute` in types.ts). -/
structure ManifestRoute where
  pattern : JsStr
  paramNames : List JsStr
  regex : JsStr
  deriving DecidableEq, Repr

/-- One entry of `buildManifest`: `\x7b pattern, paramNames:
extractParamNames(pattern), regex: patternToRegex(pattern) \x7d`. -/
def compileRoute (pattern : JsStr) : ManifestRoute :=
  { pattern := pattern
    paramNames := extractParamNames pattern
    regex := patternToRegex pattern }

/-- `params[name] = match[i + 1]` for each `(name, i)` of `paramNames`:
the i-th name is bound to the i-th capture, which JavaScript leaves
`undefined` (`none`) when the regex has fewer groups. -/
def bindParams (names : List JsStr) (caps : List JsStr) :
    List (JsStr × Option JsStr) :=
  names.mapIdx (fun i n => (n, caps.get? i))

/-- A route match (`RouteMatch` in types.ts); `params` models the built
`Record<string, string>` as an association list in insertion order. -/
structure RouteMatch where
  route : ManifestRoute
  params : List (JsStr × Option JsStr)
  deriving DecidableEq, Repr

/-- The URL normalization in `matchRoute`:
`url.split('?')[0].replace(/\/$/, '') || '/'`. -/
def cleanUrl (url : JsStr) : JsStr :=
  let s := dropOneTrailing '/' (url.takeWhile (· ≠ '?'))
  if s = [] then ['/'] else s

/-- The loop of `matchRoute`: first route whose regex matches wins. -/
def matchRouteLoop (u : JsStr) : List ManifestRoute → Option RouteMatch
  | [] => none
  | r :: rs =>
    match jsMatch r.regex u with
    | some caps => some { route := r, params := bindParams r.paramNames caps }
    | none => matchRouteLoop u rs

/-- `matchRoute(url, routes)` (routes.ts; the copy inlined in the edge
handler is textually identical). -/
def matchRoute (url : JsStr) (routes : List ManifestRoute) : Option RouteMatch :=
  matchRouteLoop (cleanUrl url) routes

end Qlara.Routes

namespace Qlara.Model

/-! A structured model of route patterns: a pattern is a nonempty list of
segments, each static or dynamic; a path "with the same segment structure"
instantiates each dynamic segment with a concrete value.  The pattern string
`/product/:id` and path string `/product/42` are recovered by rendering. -/

/-- A pattern segment paired with the value a request path chooses for it:
`lit s` is the static segment `s` (appearing verbatim in the path), and
`dyn name value` is the dynamic segment `:name` instantiated by `value`. -/
inductive VSeg where
  | lit (s : JsStr)
  | dyn (name value : JsStr)
  deriving DecidableEq, Repr

/-- How a segment appears in the route-pattern string. -/
def patSegChars : VSeg → JsStr
  | .lit s => s
  | .dyn name _ => ':' :: name

/-- How a segment appears in the request-path string. -/
def pathSegChars : VSeg → JsStr
  | .lit s => s
  | .dyn _ value => value

/-- The route-pattern string of a segment list: `/(seg)(/seg)*`. -/
def patChars : List VSeg → JsStr
  | [] => []
  | seg :: Q => '/' :: (patSegChars seg ++ patChars Q)

/-- The request-path string instantiating the segment list. -/
def pathChars : List VSeg → JsStr
  | [] => []
  | seg :: Q => '/' :: (pathSegChars seg ++ pathChars Q)

/-- The dynamic-segment names, in order of appearance. -/
def dynNames : List VSeg → List JsStr
  | [] => []
  | .lit _ :: Q => dynNames Q
  | .dyn name _ :: Q => name :: dynNames Q

/-- The dynamic-segment values, in order of appearance. -/
def dynValues : List VSeg → List JsStr
  | [] => []
  | .lit _ :: Q => dynValues Q
  | .dyn _ value :: Q => value :: dynValues Q

/-- The number of dynamic segments. -/
def dynCount (Q : List VSeg) : Nat := (dynNames Q).length

/-- The static-segment texts, in order of appearance. -/
def litSegs : List VSeg → List JsStr
  | [] => []
  | .lit s :: Q => s :: litSegs Q
  | .dyn _ _ :: Q => litSegs Q

/-- A character allowed in a static segment: not a path separator, not the
dynamic-segment marker, not a query marker. -/
def goodLitChar (c : Char) : Bool :=
  c ≠ '/' && c ≠ ':' && c ≠ '?'

/-- A character allowed in a dynamic-segment name: additionally not a regex
metacharacter (so the name survives `patternToRegex`'s escaping pass). -/
def goodNameChar (c : Char) : Bool :=
  c ≠ '/' && c ≠ ':' && c ≠ '?' && !(jsRegexMetachars.contains c)

/-- A character allowed in an instantiating path value: not a path separator
and not a query marker. -/
def goodValueChar (c : Char) : Bool :=
  c ≠ '/' && c ≠ '?'

/-- Well-formedness of one segment: nonempty texts over the allowed
characters. -/
def wfSeg : VSeg → Bool
  | .lit s => !s.isEmpty && s.all goodLitChar
  | .dyn name value =>
    !name.isEmpty && name.all goodNameChar && !value.isEmpty && value.all goodValueChar

/-- Well-formedness of a pattern-with-values: nonempty, all segments
well-formed. -/
def wfPat (Q : List VSeg) : Bool :=
  !Q.isEmpty && Q.all wfSeg

/-- The regex atoms `patternToRegex` produces for one segment. -/
def segItems : VSeg → List Routes.RItem
  | .lit s => s.map Routes.RItem.lit
  | .dyn _ _ => [Routes.RItem.group]

/-- The regex atoms `patternToRegex` produces for a whole pattern. -/
def itemsOf : List VSeg → List Routes.RItem
  | [] => []
  | seg :: Q => Routes.RItem.lit '/' :: (segItems seg ++ itemsOf Q)

end Qlara.Model

namespace Qlara.EdgeHandler

/-! The Lambda@Edge origin-request decision function, final (forward-only)
iteration from `packages/qlara/src/provider/aws`: "ALWAYS returns the request
object (forward to S3 origin). Never generates responses."  The S3 existence
check, manifest fetch and renderer invocation are modeled by an environment
resolving each external call's outcome. -/

/-- The fields of a CloudFront origin request the handler reads or forwards. -/
structure CloudFrontRequest where
  uri : JsStr
  querystring : JsStr
  deriving DecidableEq, Repr

/-- `event.Records[0].cf.request`. -/
structure CloudFrontRequestEvent where
  request : CloudFrontRequest
  deriving DecidableEq, Repr

/-- What a Lambda@Edge origin-request hook may return: the (forwarded)
request, or a function-synthesized response.  The final handler's declared
return type is the request alone; the sum captures the full range this class
of hook can return, so that "never synthesizes a response" is expressible. -/
inductive EdgeResult where
  | forward (request : CloudFrontRequest)
  | respond (status : Nat) (body : JsStr)
  deriving DecidableEq, Repr

/-- Outcomes of the handler's external calls: `fileExistsInS3` (HEAD request;
any error is caught and reported as absence), `getManifest()` (cache, fetch
and parse collapsed into its returned value), and the renderer Lambda
invocation (whose failure `invokeRenderer` catches and ignores). -/
structure EdgeEnv where
  fileExists : JsStr → Bool
  manifest : Option (List Routes.ManifestRoute)
  rendererOutcome : Except Unit Unit

/-- `uri.match(/\.([a-z0-9]+)$/)?.[1]`: the maximal trailing run of
`[a-z0-9]` characters, provided it is nonempty and preceded by a dot. -/
def extMatch (uri : JsStr) : Option JsStr :=
  let revRun := uri.reverse.takeWhile (fun c =>
    ('a' ≤ c && c ≤ 'z') || ('0' ≤ c && c ≤ '9'))
  if revRun = [] then none
  else
    match uri.reverse.drop revRun.length with
    | '.' :: _ => some revRun.reverse
    | _ => none

/-- `handler(event)` of the forward-only origin-request edge handler.
Returns the edge result together with whether the renderer was invoked.
Steps: non-HTML extension → forward; file present in S3 → forward; on a
route match invoke the renderer (any failure caught and ignored) and
forward; otherwise forward. -/
def handler (env : EdgeEnv) (event : CloudFrontRequestEvent) :
    EdgeResult × Bool :=
  let request := event.request
  let uri := request.uri
  let nonHtmlExt := extMatch uri
  if (nonHtmlExt.map (fun e => e != jstr "html")).getD false then
    (.forward request, false)
  else
    let s3Key := dropOneLeading '/' uri
    let fileExists := if s3Key ≠ [] then env.fileExists s3Key else false
    if fileExists then
      (.forward request, false)
    else
      let cleanUri := dropOneTrailingSeq (jstr ".html") uri
      let mtch :=
        match env.manifest with
        | some m => Routes.matchRoute cleanUri m
        | none => none
      match mtch with
      | some _ =>
        -- `await invokeRenderer(cleanUri, match)`: result discarded, errors
        -- swallowed by the catch inside `invokeRenderer`
        let _ := env.rendererOutcome
        (.forward request, true)
      | none => (.forward request, false)

end Qlara.EdgeHandler

namespace Qlara.Renderer

/-! The renderer Lambda body (`packages/qlara/src/provider/aws/s3.ts`,
renderer document), continued: metadata patching, RSC flight-data
extraction, per-segment prefetch generation, and the `handler` entry point.

`QlaraMetadata` is modeled on the value subdomain exercised here: the fields
below may be set, all other optional fields of the TypeScript interface are
taken as `undefined`, under which the source branches guarded by them emit
nothing and are dropped from the translation. -/

/-- `escapeHtml(str)`: `&`, `<`, `>` escaping, applied in source order. -/
def escapeHtml (s : JsStr) : JsStr :=
  replaceAllSub '>' [] (jstr "&gt;")
    (replaceAllSub '<' [] (jstr "&lt;")
      (replaceAllSub '&' [] (jstr "&amp;") s))

/-- `escapeAttr(str)`: `&`, `"`, `<`, `>` escaping, applied in source order. -/
def escapeAttr (s : JsStr) : JsStr :=
  replaceAllSub '>' [] (jstr "&gt;")
    (replaceAllSub '<' [] (jstr "&lt;")
      (replaceAllSub '"' [] (jstr "&quot;")
        (replaceAllSub '&' [] (jstr "&amp;") s)))

/-- `escapeJson(str)`: backslash, quote, newline, CR, tab escaping in source
order. -/
def escapeJson (s : JsStr) : JsStr :=
  replaceAllSub '\t' [] (jstr "\\t")
    (replaceAllSub '\r' [] (jstr "\\r")
      (replaceAllSub '\n' [] (jstr "\\n")
        (replaceAllSub '"' [] (jstr "\\\"")
          (replaceAllSub '\\' [] (jstr "\\\\") s))))

/-- `escapeRsc(str)`: backslash then quote escaping. -/
def escapeRsc (s : JsStr) : JsStr :=
  replaceAllSub '"' [] (jstr "\\\"")
    (replaceAllSub '\\' [] (jstr "\\\\") s)

/-- Open Graph fields in the modeled subdomain (`ogType` is the interface's
`type` field; `images` holds string-form images). -/
structure OGData where
  title : Option JsStr
  description : Option JsStr
  url : Option JsStr
  siteName : Option JsStr
  ogType : Option JsStr
  images : List JsStr
  deriving DecidableEq, Repr

/-- Twitter-card fields in the modeled subdomain. -/
structure TwitterData where
  card : Option JsStr
  title : Option JsStr
  description : Option JsStr
  images : List JsStr
  deriving DecidableEq, Repr

/-- `QlaraMetadata` on the modeled subdomain: required `title`, optional
`description`, `openGraph`, `twitter`; every other optional field is
`undefined`. -/
structure QlaraMetadata where
  title : JsStr
  description : Option JsStr
  openGraph : Option OGData
  twitter : Option TwitterData
  deriving DecidableEq, Repr

/-- Produce the list derived from an optional field: one element when set. -/
def optList (o : Option JsStr) (f : JsStr → JsStr) : List JsStr :=
  match o with
  | some v => [f v]
  | none => []

/-- `<meta name="N" content="C"/>` builder from `metadataToHtml`. -/
def metaTagHtml (name content : JsStr) : JsStr :=
  jstr "<meta name=\"" ++ escapeAttr name ++ jstr "\" content=\"" ++
    escapeAttr content ++ jstr "\"/>"

/-- `<meta property="P" content="C"/>` builder from `metadataToHtml`. -/
def propTagHtml (property content : JsStr) : JsStr :=
  jstr "<meta property=\"" ++ escapeAttr property ++ jstr "\" content=\"" ++
    escapeAttr content ++ jstr "\"/>"

/-- The Twitter card value: `('card' in tw && tw.card) ? tw.card : 'summary'`
(an empty string is falsy and also falls back to `summary`). -/
def twitterCardValue (tw : TwitterData) : JsStr :=
  match tw.card with
  | some c => if c = [] then jstr "summary" else c
  | none => jstr "summary"

/-- `metadataToHtml(metadata)` on the modeled subdomain, emitting tags in
source order: description; Open Graph title, description, url, site_name,
type, images; Twitter card (defaulted), title, description, images. -/
def metadataToHtml (m : QlaraMetadata) : List JsStr :=
  optList m.description (metaTagHtml (jstr "description"))
  ++ (match m.openGraph with
      | none => []
      | some og =>
        optList og.title (propTagHtml (jstr "og:title"))
        ++ optList og.description (propTagHtml (jstr "og:description"))
        ++ optList og.url (propTagHtml (jstr "og:url"))
        ++ optList og.siteName (propTagHtml (jstr "og:site_name"))
        ++ optList og.ogType (propTagHtml (jstr "og:type"))
        ++ og.images.map (propTagHtml (jstr "og:image")))
  ++ (match m.twitter with
      | none => []
      | some tw =>
        [metaTagHtml (jstr "twitter:card") (twitterCardValue tw)]
        ++ optList tw.title (metaTagHtml (jstr "twitter:title"))
        ++ optList tw.description (metaTagHtml (jstr "twitter:description"))
        ++ tw.images.map (metaTagHtml (jstr "twitter:image")))

/-- One `,["$","meta","<idx>",...]` RSC entry (`rscMeta` in
`metadataToRscEntries`); `q` renders as the escaped quote `\"`. -/
def rscMetaEntry (attrName attrValue content : JsStr) (idx : JsStr) : JsStr :=
  let q := jstr "\\\""
  jstr ",[" ++ q ++ jstr "$" ++ q ++ jstr "," ++ q ++ jstr "meta" ++ q ++
    jstr "," ++ q ++ idx ++ q ++ jstr ",\x7b" ++ q ++ attrName ++ q ++
    jstr ":" ++ q ++ escapeRsc attrValue ++ q ++ jstr "," ++ q ++
    jstr "content" ++ q ++ jstr ":" ++ q ++ escapeRsc content ++ q ++
    jstr "\x7d]"

/-- The leading title RSC entry of `metadataToRscEntries`. -/
def rscTitleEntry (title : JsStr) (idx : JsStr) : JsStr :=
  let q := jstr "\\\""
  jstr "[" ++ q ++ jstr "$" ++ q ++ jstr "," ++ q ++ jstr "title" ++ q ++
    jstr "," ++ q ++ idx ++ q ++ jstr ",\x7b" ++ q ++ jstr "children" ++ q ++
    jstr ":" ++ q ++ escapeRsc title ++ q ++ jstr "\x7d]"

/-- `metadataToRscEntries(metadata)` on the modeled subdomain: title entry,
then description, Open Graph (title, description, url, site_name, type,
images) and Twitter (card, title, description, images) entries, each with the
auto-incremented element index; concatenated with `join('')`. -/
def metadataToRscEntries (m : QlaraMetadata) : JsStr :=
  let builders : List (JsStr → JsStr) :=
    [rscTitleEntry m.title]
    ++ (match m.description with
        | some d => [rscMetaEntry (jstr "name") (jstr "description") d]
        | none => [])
    ++ (match m.openGraph with
        | none => []
        | some og =>
          (match og.title with
           | some v => [rscMetaEntry (jstr "property") (jstr "og:title") v]
           | none => [])
          ++ (match og.description with
              | some v => [rscMetaEntry (jstr "property") (jstr "og:description") v]
              | none => [])
          ++ (match og.url with
              | some v => [rscMetaEntry (jstr "property") (jstr "og:url") v]
              | none => [])
          ++ (match og.siteName with
              | some v => [rscMetaEntry (jstr "property") (jstr "og:site_name") v]
              | none => [])
          ++ (match og.ogType with
              | some v => [rscMetaEntry (jstr "property") (jstr "og:type") v]
              | none => [])
          ++ og.images.map (fun v => rscMetaEntry (jstr "property") (jstr "og:image") v))
    ++ (match m.twitter with
        | none => []
        | some tw =>
          [rscMetaEntry (jstr "name") (jstr "twitter:card") (twitterCardValue tw)]
          ++ (match tw.title with
              | some v => [rscMetaEntry (jstr "name") (jstr "twitter:title") v]
              | none => [])
          ++ (match tw.description with
              | some v => [rscMetaEntry (jstr "name") (jstr "twitter:description") v]
              | none => [])
          ++ tw.images.map (fun v => rscMetaEntry (jstr "name") (jstr "twitter:image") v))
  (builders.mapIdx (fun i f => f (jstr (toString i)))).flatten

/-- JavaScript `\s` on the ASCII range. -/
def isJsWs (c : Char) : Bool :=
  c = ' ' || c = '\t' || c = '\n' || c = '\r' || c = '\x0b' || c = '\x0c'

/-- Consume a literal, or fail. -/
def dropLit (lit : JsStr) (s : JsStr) : Option JsStr :=
  if lit.isPrefixOf s then some (s.drop lit.length) else none

/-- Consume `\s+` (at least one whitespace character), or fail. -/
def dropWsPlus (s : JsStr) : Option JsStr :=
  match s with
  | c :: rest => if isJsWs c then some (rest.dropWhile isJsWs) else none
  | [] => none

/-- Consume `\s*`. -/
def dropWsStar (s : JsStr) : JsStr := s.dropWhile isJsWs

/-- Fuel-driven global scan-and-replace: at each position, `step` either
matches (returning the emitted text and the rest after the match, which it
always shortens) or the character is copied and scanning advances by one.
Models a global (`/g`) regex replacement; fuel `s.length + 1` suffices. -/
def scanReplace (step : JsStr → Option (JsStr × JsStr)) : Nat → JsStr → JsStr
  | 0, s => s
  | _, [] => []
  | fuel + 1, c :: rest =>
    match step (c :: rest) with
    | some (out, after) => out ++ scanReplace step fuel after
    | none => c :: scanReplace step fuel rest

/-- Like `scanReplace` but replaces only the first match (a non-global regex
replacement); the remainder is kept verbatim. -/
def scanReplaceFirst (step : JsStr → Option (JsStr × JsStr)) :
    Nat → JsStr → JsStr
  | 0, s => s
  | _, [] => []
  | fuel + 1, c :: rest =>
    match step (c :: rest) with
    | some (out, after) => out ++ after
    | none => c :: scanReplaceFirst step fuel rest

/-- The exact tag identities of the managed-tag alternation in
`patchMetadata`'s strip regexes. -/
def managedExactNames : List JsStr :=
  [jstr "description", jstr "application-name", jstr "generator",
   jstr "creator", jstr "publisher", jstr "category", jstr "classification",
   jstr "abstract", jstr "referrer", jstr "keywords", jstr "author",
   jstr "robots", jstr "googlebot", jstr "google-site-verification",
   jstr "y_key", jstr "yandex-verification", jstr "me",
   jstr "format-detection", jstr "apple-itunes-app", jstr "pinterest-rich-pin"]

/-- The prefix families `og:`, `twitter:`, `fb:`, `al:`,
`apple-mobile-web-app-` of that alternation (each written `X[^"]*`). -/
def managedNamePrefixes : List JsStr :=
  [jstr "og:", jstr "twitter:", jstr "fb:", jstr "al:",
   jstr "apple-mobile-web-app-"]

/-- Whether a `name`/`property` value matches the managed alternation in
whole. -/
def isManagedName (n : JsStr) : Bool :=
  managedExactNames.contains n ||
    managedNamePrefixes.any (fun p => p.isPrefixOf n)

/-- The managed `rel` values of the `<link ...>` strip regex. -/
def managedRels : List JsStr :=
  [jstr "canonical", jstr "alternate", jstr "author", jstr "icon",
   jstr "shortcut icon", jstr "apple-touch-icon",
   jstr "apple-touch-startup-image", jstr "manifest", jstr "archives",
   jstr "assets", jstr "bookmarks", jstr "prev", jstr "next"]

/-- Parse `<meta\s+(?:name|property)="N"\s+content="C"\s*\/?>` at the head of
`s`, returning the name value and the rest after `>`. -/
def parseMetaNameFirst (s : JsStr) : Option (JsStr × JsStr) :=
  (dropLit (jstr "<meta") s).bind fun s1 =>
  (dropWsPlus s1).bind fun s2 =>
  (match dropLit (jstr "name=\"") s2 with
   | some s3 => some s3
   | none => dropLit (jstr "property=\"") s2).bind fun s3 =>
  let nameVal := s3.takeWhile (· ≠ '"')
  (dropLit [ '"' ] (s3.drop nameVal.length)).bind fun s4 =>
  (dropWsPlus s4).bind fun s5 =>
  (dropLit (jstr "content=\"") s5).bind fun s6 =>
  let contentVal := s6.takeWhile (· ≠ '"')
  (dropLit [ '"' ] (s6.drop contentVal.length)).bind fun s7 =>
  let s8 := dropWsStar s7
  let s9 := match s8 with
    | '/' :: r => r
    | _ => s8
  (dropLit [ '>' ] s9).map fun s10 => (nameVal, s10)

/-- Parse `<meta\s+content="C"\s+(?:name|property)="N"\s*\/?>` (the
content-first attribute ordering), returning the name value and the rest. -/
def parseMetaContentFirst (s : JsStr) : Option (JsStr × JsStr) :=
  (dropLit (jstr "<meta") s).bind fun s1 =>
  (dropWsPlus s1).bind fun s2 =>
  (dropLit (jstr "content=\"") s2).bind fun s3 =>
  let contentVal := s3.takeWhile (· ≠ '"')
  (dropLit [ '"' ] (s3.drop contentVal.length)).bind fun s4 =>
  (dropWsPlus s4).bind fun s5 =>
  (match dropLit (jstr "name=\"") s5 with
   | some s6 => some s6
   | none => dropLit (jstr "property=\"") s5).bind fun s6 =>
  let nameVal := s6.takeWhile (· ≠ '"')
  (dropLit [ '"' ] (s6.drop nameVal.length)).bind fun s7 =>
  let s8 := dropWsStar s7
  let s9 := match s8 with
    | '/' :: r => r
    | _ => s8
  (dropLit [ '>' ] s9).map fun s10 => (nameVal, s10)

/-- Parse `<link\s+rel="R"[^>]*\/?>`, returning the rel value and the rest
after the first `>`. -/
def parseLinkTag (s : JsStr) : Option (JsStr × JsStr) :=
  (dropLit (jstr "<link") s).bind fun s1 =>
  (dropWsPlus s1).bind fun s2 =>
  (dropLit (jstr "rel=\"") s2).bind fun s3 =>
  let relVal := s3.takeWhile (· ≠ '"')
  (dropLit [ '"' ] (s3.drop relVal.length)).bind fun s4 =>
  let run := s4.takeWhile (· ≠ '>')
  (dropLit [ '>' ] (s4.drop run.length)).map fun s5 => (relVal, s5)

/-- Strip step for managed meta tags (either attribute ordering). -/
def stripMetaStep (parse : JsStr → Option (JsStr × JsStr)) (s : JsStr) :
    Option (JsStr × JsStr) :=
  (parse s).bind fun nv =>
    if isManagedName nv.1 then some ([], nv.2) else none

/-- Strip step for managed link tags. -/
def stripLinkStep (s : JsStr) : Option (JsStr × JsStr) :=
  (parseLinkTag s).bind fun nv =>
    if managedRels.contains nv.1 then some ([], nv.2) else none

/-- Replacement step for `/<title>[^<]*<\/title>/` (first occurrence). -/
def titleStep (newTitle : JsStr) (s : JsStr) : Option (JsStr × JsStr) :=
  (dropLit (jstr "<title>") s).bind fun s1 =>
  let run := s1.takeWhile (· ≠ '<')
  (dropLit (jstr "</title>") (s1.drop run.length)).map fun after =>
    (jstr "<title>" ++ newTitle ++ jstr "</title>", after)

/-- Replacement step for `/(<\/title>)/` with `$1` plus the emitted tags. -/
def injectAfterTitleStep (tags : JsStr) (s : JsStr) : Option (JsStr × JsStr) :=
  (dropLit (jstr "</title>") s).map fun after =>
    (jstr "</title>" ++ tags, after)

/-- Scan for the earliest position at which `tailMatch` succeeds (the lazy
`[\s\S]*?` before a fixed tail). -/
def findTailAfter (tailMatch : JsStr → Option JsStr) :
    Nat → JsStr → Option JsStr
  | 0, _ => none
  | fuel + 1, t =>
    match tailMatch t with
    | some rest => some rest
    | none =>
      match t with
      | [] => none
      | _ :: t' => findTailAfter tailMatch fuel t'

/-- Match the tail
`\],\\"error\\":null,\\"digest\\":\\\"?\$undefined\\\"?\}` of the embedded
RSC metadata entry (the two quotes are optional; consuming them greedily
without backtracking is equivalent here because the following literal starts
with a different character). -/
def rscTailMatch (t : JsStr) : Option JsStr :=
  (dropLit (jstr "],\\\"error\\\":null,\\\"digest\\\":\\") t).bind fun t1 =>
  let t2 := match t1 with
    | '"' :: r => r
    | _ => t1
  (dropLit (jstr "$undefined\\") t2).bind fun t3 =>
  let t4 := match t3 with
    | '"' :: r => r
    | _ => t3
  dropLit (jstr "\x7d") t4

/-- The head literal `8:\{\\"metadata\\":\[` of that regex. -/
def rscHeadLit : JsStr := jstr "8:\x7b\\\"metadata\\\":["

/-- Replacement step for the embedded-RSC metadata entry: head literal, lazy
span to the earliest tail, replaced by the rebuilt entry. -/
def rscMetaStep (rscEntries : JsStr) (s : JsStr) : Option (JsStr × JsStr) :=
  (dropLit rscHeadLit s).bind fun afterHead =>
  (findTailAfter rscTailMatch (afterHead.length + 1) afterHead).map fun rest =>
    (rscHeadLit ++ rscEntries ++
      jstr "],\\\"error\\\":null,\\\"digest\\\":\\\"$undefined\\\"\x7d", rest)

/-- `patchMetadata(html, metadata)`: rewrite the `<title>`, strip the managed
meta tags (both attribute orderings) and managed link tags, inject the
regenerated tags after `</title>`, and patch the embedded RSC metadata
entry. -/
def patchMetadata (html : JsStr) (metadata : QlaraMetadata) : JsStr :=
  let p1 := scanReplaceFirst (titleStep (escapeHtml metadata.title))
    (html.length + 1) html
  let p2 := scanReplace (stripMetaStep parseMetaNameFirst) (p1.length + 1) p1
  let p3 := scanReplace (stripMetaStep parseMetaContentFirst) (p2.length + 1) p2
  let p4 := scanReplace stripLinkStep (p3.length + 1) p3
  let htmlTags := (metadataToHtml metadata).flatten
  let p5 := scanReplaceFirst (injectAfterTitleStep htmlTags) (p4.length + 1) p4
  let rscEntries := metadataToRscEntries metadata
  scanReplaceFirst (rscMetaStep rscEntries) (p5.length + 1) p5

/-- The literal head of `/self\.__next_f\.push\(\[1,"((?:[^"\\]|\\.)*)"\]\)/g`. -/
def rscPushLit : JsStr := jstr "self.__next_f.push([1,\""

/-- Match the capture `((?:[^"\\]|\\.)*)` followed by `"])`:  units are a
non-quote non-backslash character or a backslash pair; the star must stop at
an unescaped quote (no other choice exists, so matching is deterministic);
returns the capture and the rest after `"])`. -/
def rscBodyMatch : JsStr → Option (JsStr × JsStr)
  | [] => none
  | '"' :: rest =>
    match rest with
    | ']' :: ')' :: r2 => some ([], r2)
    | _ => none
  | '\\' :: c :: rest =>
    (rscBodyMatch rest).map (fun p => ('\\' :: c :: p.1, p.2))
  | ['\\'] => none
  | c :: rest =>
    (rscBodyMatch rest).map (fun p => (c :: p.1, p.2))

/-- The global scan of the RSC-push regex: collect each capture, resuming
after the full match; a failed attempt advances by one character.
Fuel `s.length + 1` suffices (every step consumes at least one character). -/
def rscScanPush : Nat → JsStr → List JsStr
  | 0, _ => []
  | fuel + 1, s =>
    if rscPushLit.isPrefixOf s then
      match rscBodyMatch (s.drop rscPushLit.length) with
      | some (cap, rest) => cap :: rscScanPush fuel rest
      | none =>
        match s with
        | [] => []
        | _ :: r => rscScanPush fuel r
    else
      match s with
      | [] => []
      | _ :: r => rscScanPush fuel r

/-- `extractRscFlightData(html)`: collect the `self.__next_f.push([1,"..."])`
captures, unescape each (`\\n` → newline, `\\"` → quote, `\\\\` → backslash,
in source order) and join them; `none` when there are no chunks. -/
def extractRscFlightData (html : JsStr) : Option JsStr :=
  let chunks := (rscScanPush (html.length + 1) html).map (fun cap =>
    replaceAllSub '\\' ['\\'] (jstr "\\")
      (replaceAllSub '\\' ['"'] (jstr "\"")
        (replaceAllSub '\\' ['n'] (jstr "\n") cap)))
  if chunks = [] then none else some chunks.flatten

/-- `SegmentFileType`. -/
inductive SegmentFileType where
  | shared
  | tree
  | head
  | full
  | page
  deriving DecidableEq, Repr

/-- `classifySegmentFile(name)`. -/
def classifySegmentFile (name : JsStr) : SegmentFileType :=
  if name = jstr "__next._tree.txt" then .tree
  else if name = jstr "__next._head.txt" then .head
  else if name = jstr "__next._full.txt" then .full
  else if containsSub (jstr "__PAGE__") name then .page
  else .shared

/-- Replace the first occurrence of `pre` + `[^"]*` + `"` by `repl` (the
single-occurrence `"key":"[^"]*"`-style replacements in the segment
patchers); a position where the closing quote is missing does not match and
scanning continues. -/
def replaceFirstPreQuoted (pre repl : JsStr) : JsStr → JsStr
  | [] => []
  | c :: rest =>
    if pre.isPrefixOf (c :: rest) then
      let afterPre := (c :: rest).drop pre.length
      let run := afterPre.takeWhile (· ≠ '"')
      match afterPre.drop run.length with
      | '"' :: after => repl ++ after
      | _ => c :: replaceFirstPreQuoted pre repl rest
    else c :: replaceFirstPreQuoted pre repl rest

/-- `patchTreeSegment(template, params)`: for each param, replace the first
`"name":"N","paramType":"d","paramKey":"..."` with the new value. -/
def patchTreeSegment (template : JsStr) (params : List (JsStr × JsStr)) : JsStr :=
  params.foldl (fun acc nv =>
    replaceFirstPreQuoted
      (jstr "\"name\":\"" ++ nv.1 ++ jstr "\",\"paramType\":\"d\",\"paramKey\":\"")
      (jstr "\"name\":\"" ++ nv.1 ++ jstr "\",\"paramType\":\"d\",\"paramKey\":\"" ++
        nv.2 ++ jstr "\"")
      acc) template

/-- `patchPageSegment(template, params)`: for each param, replace the first
`"key":"..."` with the new value. -/
def patchPageSegment (template : JsStr) (params : List (JsStr × JsStr)) : JsStr :=
  params.foldl (fun acc nv =>
    replaceFirstPreQuoted
      (jstr "\"" ++ nv.1 ++ jstr "\":\"")
      (jstr "\"" ++ nv.1 ++ jstr "\":\"" ++ nv.2 ++ jstr "\"")
      acc) template

/-- `["$","title","<idx>",...]` entry of `generateHeadSegment` (plain JSON,
not HTML-escaped). -/
def headTitleEntry (title : JsStr) (idx : JsStr) : JsStr :=
  jstr "[\"$\",\"title\",\"" ++ idx ++ jstr "\",\x7b\"children\":\"" ++
    escapeJson title ++ jstr "\"\x7d]"

/-- `["$","meta","<idx>",...]` entry of `generateHeadSegment` with a
`name`/`property` attribute. -/
def headMetaEntry (attrName attrValue content : JsStr) (idx : JsStr) : JsStr :=
  jstr "[\"$\",\"meta\",\"" ++ idx ++ jstr "\",\x7b\"" ++ attrName ++
    jstr "\":\"" ++ attrValue ++ jstr "\",\"content\":\"" ++
    escapeJson content ++ jstr "\"\x7d]"

/-- The metadata children of `generateHeadSegment` on the modeled subdomain:
title, description, Open Graph (title, description, url, site_name, type,
string-form images), Twitter (card, title, description, string-form images),
joined with `,`. -/
def headMetaChildren (m : QlaraMetadata) : JsStr :=
  let builders : List (JsStr → JsStr) :=
    [headTitleEntry m.title]
    ++ (match m.description with
        | some d => [headMetaEntry (jstr "name") (jstr "description") d]
        | none => [])
    ++ (match m.openGraph with
        | none => []
        | some og =>
          (match og.title with
           | some v => [headMetaEntry (jstr "property") (jstr "og:title") v]
           | none => [])
          ++ (match og.description with
              | some v => [headMetaEntry (jstr "property") (jstr "og:description") v]
              | none => [])
          ++ (match og.url with
              | some v => [headMetaEntry (jstr "property") (jstr "og:url") v]
              | none => [])
          ++ (match og.siteName with
              | some v => [headMetaEntry (jstr "property") (jstr "og:site_name") v]
              | none => [])
          ++ (match og.ogType with
              | some v => [headMetaEntry (jstr "property") (jstr "og:type") v]
              | none => [])
          ++ og.images.map (fun v => headMetaEntry (jstr "property") (jstr "og:image") v))
    ++ (match m.twitter with
        | none => []
        | some tw =>
          [headMetaEntry (jstr "name") (jstr "twitter:card") (twitterCardValue tw)]
          ++ (match tw.title with
              | some v => [headMetaEntry (jstr "name") (jstr "twitter:title") v]
              | none => [])
          ++ (match tw.description with
              | some v => [headMetaEntry (jstr "name") (jstr "twitter:description") v]
              | none => [])
          ++ tw.images.map (fun v => headMetaEntry (jstr "name") (jstr "twitter:image") v))
  jsJoin ',' (builders.mapIdx (fun i f => f (jstr (toString i))))

/-- `generateHeadSegment(template, metadata)`: split into lines; the last
line starting `0:` is the payload line, nonblank other lines are the
preamble (the extracted `buildId` and viewport tags are dead locals in the
source and are omitted); the `"name":"Next.Metadata","children":[...]}`
span of the payload line is lazily replaced by the rebuilt children. -/
def generateHeadSegment (template : JsStr) (metadata : QlaraMetadata) : JsStr :=
  let lines := jsSplit '\n' template
  let collected := lines.foldl (fun (acc : List JsStr × JsStr) line =>
    if jsStartsWith (jstr "0:") line then (acc.1, line)
    else if line.any (fun c => ¬ isJsWs c) then (acc.1 ++ [line], acc.2)
    else acc) ([], [])
  let preambleLines := collected.1
  let line0 := collected.2
  let headLit := jstr "\"name\":\"Next.Metadata\",\"children\":["
  let newLine0 := scanReplaceFirst (fun s =>
    (dropLit headLit s).bind fun afterHead =>
    (findTailAfter (dropLit (jstr "]\x7d")) (afterHead.length + 1) afterHead).map
      fun rest => (headLit ++ headMetaChildren metadata ++ jstr "]\x7d", rest))
    (line0.length + 1) line0
  jsJoin '\n' preambleLines ++ jstr "\n" ++ newLine0 ++ jstr "\n"

/-- Outcomes of the renderer's S3 calls, for the bucket the event names:
`get` is `GetObjectCommand` plus `transformToString` (`.error` = rejected;
an `.ok` empty string also covers an absent body), `putFails` tells whether
a `PutObjectCommand` rejects, `list` is `ListObjectsV2Command` returning the
keys under a prefix, and `refCache` is the warm `referencePageCache`
content. -/
structure S3Env where
  get : JsStr → Except Unit JsStr
  putFails : JsStr → Bool
  list : JsStr → Except Unit (List JsStr)
  refCache : JsStr → Option (Option JsStr)

/-- `findReferenceSegmentDir(bucket, routePrefix)`: consult the cache; else
list `routePrefix/` and take the first key ending `/__next._tree.txt`,
returning its directory (list errors are caught and yield no reference). -/
def findReferenceSegmentDir (env : S3Env) (routePrefix : JsStr) : Option JsStr :=
  match env.refCache routePrefix with
  | some cached => cached
  | none =>
    match env.list (routePrefix ++ [ '/' ]) with
    | .error _ => none
    | .ok keys =>
      (keys.find? (fun k => jsEndsWith (jstr "/__next._tree.txt") k)).map
        (fun k => k.take (k.length - (jstr "__next._tree.txt").length))

/-- `listReferenceSegmentFiles(bucket, refDir)`: list `refDir__next.`, keep
`.txt` keys, strip the directory prefix (errors are caught, yielding `[]`). -/
def listReferenceSegmentFiles (env : S3Env) (refDir : JsStr) : List JsStr :=
  match env.list (refDir ++ jstr "__next.") with
  | .error _ => []
  | .ok keys =>
    (keys.filter (fun k => jsEndsWith (jstr ".txt") k)).map
      (fun k => k.drop refDir.length)

/-- `generateSegmentFiles(bucket, uri, params, rscData, metadata)`: derive
the per-path segment files from a build-time reference page and upload them.
Returns whether the `Promise.all` of uploads rejected, together with the
uploads that succeeded (under `Promise.all`, uploads all start, so
successful ones persist even when another rejects). -/
def generateSegmentFiles (env : S3Env) (uri : JsStr)
    (params : List (JsStr × JsStr)) (rscData : Option JsStr)
    (metadata : Option QlaraMetadata) :
    Except Unit Unit × List (JsStr × JsStr) :=
  let cleanUri := dropOneTrailing '/' (dropOneLeading '/' uri)
  let parts := jsSplit '/' cleanUri
  let routePrefix := jsJoin '/' parts.dropLast
  let segmentDir := cleanUri ++ [ '/' ]
  match findReferenceSegmentDir env routePrefix with
  | none => (.ok (), [])
  | some refDir =>
    let fileNames := listReferenceSegmentFiles env refDir
    if fileNames = [] then (.ok (), [])
    else
      let filesToRead := fileNames.filter
        (fun n => classifySegmentFile n ≠ SegmentFileType.full)
      -- `Promise.allSettled` of the reads; only fulfilled, nonempty
      -- contents enter the reference map
      let refMap : List (JsStr × JsStr) := filesToRead.filterMap (fun n =>
        match env.get (refDir ++ n) with
        | .ok content => if content = [] then none else some (n, content)
        | .error _ => none)
      let lookup := fun n => (refMap.find? (fun p => p.1 = n)).map Prod.snd
      let contents : List (JsStr × Option JsStr) := fileNames.map (fun n =>
        (n, match classifySegmentFile n with
            | .shared => lookup n
            | .tree => (lookup n).map (fun t => patchTreeSegment t params)
            | .head =>
              match lookup n, metadata with
              | some t, some md => some (generateHeadSegment t md)
              | _, _ => none
            | .full => rscData
            | .page => (lookup n).map (fun t => patchPageSegment t params)))
      -- `if (content)`: empty content is falsy and also skipped
      let uploads := contents.filterMap (fun nc =>
        match nc.2 with
        | some c => if c = [] then none else some (segmentDir ++ nc.1, c)
        | none => none)
      let writes := uploads.filter (fun kv => ¬ env.putFails kv.1)
      if uploads.any (fun kv => env.putFails kv.1) then (.error (), writes)
      else (.ok (), writes)

/-- A bundled route definition (`routes` from the bundled route file):
`validate` and the metadata generators are integrator-supplied asynchronous
functions; `.error` models a rejected promise. -/
structure RouteDef where
  route : JsStr
  validate : Option (List (JsStr × JsStr) → Except Unit Bool)
  generateMetadata : Option (List (JsStr × JsStr) → Except Unit (Option QlaraMetadata))
  metaDataGenerator : Option (List (JsStr × JsStr) → Except Unit (Option QlaraMetadata))

/-- Bundle-time configuration: `__QLARA_FRAMEWORK__` and the bundled route
definitions. -/
structure RendererConfig where
  framework : JsStr
  routes : List RouteDef

/-- `RendererEvent` (with the `warmup` flag). -/
structure RendererEvent where
  uri : JsStr
  bucket : JsStr
  routePattern : JsStr
  params : List (JsStr × JsStr)
  warmup : Bool

/-- `RendererResult`. -/
structure RendererResult where
  statusCode : Nat
  body : JsStr
  html : Option JsStr
  deriving DecidableEq, Repr

/-- `JSON.stringify` of the params record, modeled with the source's
`escapeJson` on the common character subset. -/
def jsonStringifyParams (params : List (JsStr × JsStr)) : JsStr :=
  jstr "\x7b" ++
    jsJoin ',' (params.map (fun kv =>
      jstr "\"" ++ escapeJson kv.1 ++ jstr "\":\"" ++ escapeJson kv.2 ++ jstr "\"")) ++
    jstr "\x7d"

/-- Body of the validation-rejection result. -/
def validationFailedBody (uri : JsStr) (params : List (JsStr × JsStr)) : JsStr :=
  jstr "\x7b\"error\":\"Validation failed for " ++ uri ++
    jstr "\",\"params\":" ++ jsonStringifyParams params ++ jstr "\x7d"

/-- Body of the de-duplication result. -/
def alreadyRenderedBody (uri s3Key : JsStr) : JsStr :=
  jstr "\x7b\"message\":\"Already rendered: " ++ uri ++
    jstr "\",\"key\":\"" ++ s3Key ++ jstr "\"\x7d"

/-- Body of the empty-fallback failure. -/
def emptyFallbackBody (fallbackKey : JsStr) : JsStr :=
  jstr "\x7b\"error\":\"Empty fallback at " ++ fallbackKey ++ jstr "\"\x7d"

/-- Body of the missing-fallback failure. -/
def fallbackNotFoundBody (fallbackKey : JsStr) : JsStr :=
  jstr "\x7b\"error\":\"Fallback not found: " ++ fallbackKey ++ jstr "\"\x7d"

/-- Body of the success result. -/
def renderedBody (uri s3Key : JsStr) : JsStr :=
  jstr "\x7b\"message\":\"Rendered and cached: " ++ uri ++
    jstr "\",\"key\":\"" ++ s3Key ++ jstr "\"\x7d"

/-- The catch-all failure result (the thrown error's message, appended in
the source after `: `, is elided since errors are modeled as `Unit`). -/
def renderFailed (uri : JsStr) : RendererResult :=
  ⟨500, jstr "\x7b\"error\":\"Render failed for " ++ uri ++ jstr ": \"\x7d", none⟩

/-- Placeholder substitution, step 2 of the handler:
`html = html.replace(new RegExp(paramPlaceholder(name), 'g'), value)` over
`Object.entries(params)` in insertion order (the generated placeholder is
regex-literal for metacharacter-free names, which is the modeled domain). -/
def substPlaceholders (params : List (JsStr × JsStr)) (html : JsStr) : JsStr :=
  params.foldl (fun h nv =>
    match paramPlaceholder nv.1 with
    | [] => h
    | p :: ps => replaceAllSub p ps nv.2 h) html

/-- `s3Key.replace(/\.html$/, '.txt')`. -/
def htmlKeyToTxt (s3Key : JsStr) : JsStr :=
  if jsEndsWith (jstr ".html") s3Key then
    s3Key.take (s3Key.length - (jstr ".html").length) ++ jstr ".txt"
  else s3Key

/-- Steps 6–7 of the handler (the `__QLARA_FRAMEWORK__ === 'next'` branch
plus the final success result): RSC `.txt` upload, segment-file generation,
success.  `writes0` are the writes performed so far. -/
def handlerNextSteps (cfg : RendererConfig) (env : S3Env)
    (event : RendererEvent) (metadata : Option QlaraMetadata) (html : JsStr)
    (s3Key : JsStr) (writes0 : List (JsStr × JsStr)) :
    RendererResult × List (JsStr × JsStr) :=
  if cfg.framework = jstr "next" then
    let rscData := extractRscFlightData html
    match rscData with
    | some d =>
      let txtKey := htmlKeyToTxt s3Key
      if env.putFails txtKey then (renderFailed event.uri, writes0)
      else
        let writes1 := writes0 ++ [(txtKey, d)]
        match generateSegmentFiles env event.uri event.params rscData metadata with
        | (.error _, segWrites) => (renderFailed event.uri, writes1 ++ segWrites)
        | (.ok _, segWrites) =>
          (⟨200, renderedBody event.uri s3Key, some html⟩, writes1 ++ segWrites)
    | none =>
      match generateSegmentFiles env event.uri event.params rscData metadata with
      | (.error _, segWrites) => (renderFailed event.uri, writes0 ++ segWrites)
      | (.ok _, segWrites) =>
        (⟨200, renderedBody event.uri s3Key, some html⟩, writes0 ++ segWrites)
  else
    (⟨200, renderedBody event.uri s3Key, some html⟩, writes0)

/-- Steps 3–5 of the handler: metadata generation, metadata patching, main
artifact upload, then the framework-specific steps. -/
def handlerMetadataSteps (cfg : RendererConfig) (env : S3Env)
    (event : RendererEvent) (routeDef : Option RouteDef) (html1 : JsStr)
    (s3Key : JsStr) : RendererResult × List (JsStr × JsStr) :=
  let metadataFn :=
    (routeDef.bind RouteDef.generateMetadata).orElse
      (fun _ => routeDef.bind RouteDef.metaDataGenerator)
  let step := fun (metadata : Option QlaraMetadata) (html2 : JsStr) =>
    if env.putFails s3Key then (renderFailed event.uri, [])
    else handlerNextSteps cfg env event metadata html2 s3Key [(s3Key, html2)]
  match metadataFn with
  | some f =>
    match f event.params with
    | .error _ => (renderFailed event.uri, [])
    | .ok m =>
      let html2 :=
        match m with
        | some md => patchMetadata html1 md
        | none => html1
      step m html2
  | none => step none html1

/-- Steps 1–2 of the handler: the parallel de-duplication read and fallback
read, the short-circuit on an existing artifact, the fallback checks, and
placeholder substitution. -/
def handlerRenderSteps (cfg : RendererConfig) (env : S3Env)
    (event : RendererEvent) (routeDef : Option RouteDef) :
    RendererResult × List (JsStr × JsStr) :=
  let s3Key := deriveS3Key event.uri
  let fallbackKey := deriveFallbackKey event.routePattern
  let existingResult := env.get s3Key
  let fallbackResult := env.get fallbackKey
  let existingHtml :=
    match existingResult with
    | .ok e => if e = [] then none else some e
    | .error _ => none
  match existingHtml with
  | some e => (⟨200, alreadyRenderedBody event.uri s3Key, some e⟩, [])
  | none =>
    match fallbackResult with
    | .error _ => (⟨500, fallbackNotFoundBody fallbackKey, none⟩, [])
    | .ok fb =>
      if fb = [] then (⟨500, emptyFallbackBody fallbackKey, none⟩, [])
      else
        let html1 := substPlaceholders event.params fb
        handlerMetadataSteps cfg env event routeDef html1 s3Key

/-- `handler(event)` of the renderer Lambda.  Returns the `RendererResult`
together with the list of successful S3 writes `(key, body)` the invocation
performed, in order.  All thrown errors are caught and normalized to the
`renderFailed` result (writes already performed remain). -/
def handler (cfg : RendererConfig) (env : S3Env) (event : RendererEvent) :
    RendererResult × List (JsStr × JsStr) :=
  if event.warmup then (⟨200, jstr "warm", none⟩, [])
  else
    let routeDef := cfg.routes.find? (fun r => r.route = event.routePattern)
    match routeDef.bind RouteDef.validate with
    | some f =>
      match f event.params with
      | .error _ => (renderFailed event.uri, [])
      | .ok valid =>
        if valid then handlerRenderSteps cfg env event routeDef
        else (⟨404, validationFailedBody event.uri event.params, none⟩, [])
    | none => handlerRenderSteps cfg env event routeDef

end Qlara.Renderer

namespace Qlara.Examples

/-! Concrete route definitions, store environments and events used to
evaluate the embedded handlers at specific inputs. -/

/-- A route whose validation hook rejects every params record. -/
def rejectAllRoute : Renderer.RouteDef :=
  ⟨jstr "/product/:id", some (fun _ => .ok false), none, none⟩

/-- A route whose validation hook accepts every params record. -/
def acceptAllRoute : Renderer.RouteDef :=
  ⟨jstr "/product/:id", some (fun _ => .ok true), none, none⟩

/-- A route whose metadata generator returns `null` for every params record
(the integrator's "page does not exist" signal). -/
def nullMetadataRoute : Renderer.RouteDef :=
  ⟨jstr "/product/:id", none, some (fun _ => .ok none), none⟩

/-- Renderer config with the rejecting route. -/
def rejectCfg : Renderer.RendererConfig := ⟨jstr "next", [rejectAllRoute]⟩

/-- Renderer config with the accepting route. -/
def acceptCfg : Renderer.RendererConfig := ⟨jstr "next", [acceptAllRoute]⟩

/-- Renderer config with the null-metadata route, non-Next framework. -/
def nullMetadataCfg : Renderer.RendererConfig := ⟨jstr "vite", [nullMetadataRoute]⟩

/-- A store holding an already-rendered artifact at `product/42.html`. -/
def storeWithArtifact : Renderer.S3Env :=
  ⟨fun k => if k = jstr "product/42.html" then .ok (jstr "cached") else .error (),
   fun _ => false, fun _ => .error (), fun _ => none⟩

/-- The fallback template for the null-metadata scenario. -/
def idFallbackHtml : JsStr := jstr "<html>__QLARA_FALLBACK_id__</html>"

/-- A store holding only the fallback template at `product/_fallback.html`. -/
def storeWithFallback : Renderer.S3Env :=
  ⟨fun k => if k = jstr "product/_fallback.html" then .ok idFallbackHtml else .error (),
   fun _ => false, fun _ => .error (), fun _ => none⟩

/-- Renderer event for `/product/42` on pattern `/product/:id`. -/
def product42Event : Renderer.RendererEvent :=
  ⟨jstr "/product/42", jstr "site-bucket", jstr "/product/:id",
   [(jstr "id", jstr "42")], false⟩

/-- Renderer event for `/product/404` on pattern `/product/:id`. -/
def product404Event : Renderer.RendererEvent :=
  ⟨jstr "/product/404", jstr "site-bucket", jstr "/product/:id",
   [(jstr "id", jstr "404")], false⟩

/-- A fallback template containing an RSC flight-data push script. -/
def rscFallbackHtml : JsStr :=
  jstr "<html><script>self.__next_f.push([1,\"0:x\"])</script></html>"

/-- Renderer config with no bundled routes, Next framework. -/
def nextNoRoutesCfg : Renderer.RendererConfig := ⟨jstr "next", []⟩

/-- A store holding the fallback at `p/_fallback.html` whose put of
`p/1.txt` (the secondary RSC upload) rejects. -/
def storeTxtPutFailing : Renderer.S3Env :=
  ⟨fun k => if k = jstr "p/_fallback.html" then .ok rscFallbackHtml else .error (),
   fun k => k = jstr "p/1.txt", fun _ => .error (), fun _ => none⟩

/-- Renderer event for `/p/1` on pattern `/p/:id` with no params. -/
def p1Event : Renderer.RendererEvent :=
  ⟨jstr "/p/1", jstr "site-bucket", jstr "/p/:id", [], false⟩

/-- Renderer config with no bundled routes, non-Next framework. -/
def viteNoRoutesCfg : Renderer.RendererConfig := ⟨jstr "vite", []⟩

/-- A store where every operation fails. -/
def emptyFailingStore : Renderer.S3Env :=
  ⟨fun _ => .error (), fun _ => false, fun _ => .error (), fun _ => none⟩

/-- Renderer event for `/x` on pattern `/x/:id`. -/
def xEvent : Renderer.RendererEvent :=
  ⟨jstr "/x", jstr "site-bucket", jstr "/x/:id", [], false⟩

/-- `/product/:id` instantiated at `42`. -/
def exProductId : List Model.VSeg :=
  [Model.VSeg.lit (jstr "product"), Model.VSeg.dyn (jstr "id") (jstr "42")]

/-- `/blog/:year/:slug` instantiated at `2024`, `my-post`. -/
def exBlog : List Model.VSeg :=
  [Model.VSeg.lit (jstr "blog"), Model.VSeg.dyn (jstr "year") (jstr "2024"),
   Model.VSeg.dyn (jstr "slug") (jstr "my-post")]

/-- `/:lang/products/:id` instantiated at `en`, `99`. -/
def exLangProducts : List Model.VSeg :=
  [Model.VSeg.dyn (jstr "lang") (jstr "en"), Model.VSeg.lit (jstr "products"),
   Model.VSeg.dyn (jstr "id") (jstr "99")]

/-- `/:a/:b/:c` instantiated at `x`, `y`, `z`. -/
def exAllDyn : List Model.VSeg :=
  [Model.VSeg.dyn (jstr "a") (jstr "x"), Model.VSeg.dyn (jstr "b") (jstr "y"),
   Model.VSeg.dyn (jstr "c") (jstr "z")]

end Qlara.Examples

namespace Qlara

/-! ### Claim theorems -/

/-- C9: the independently maintained copies of the key/placeholder functions
are extensionally equal: the renderer's inlined `deriveFallbackKey` agrees
with the deploy-time `getFallbackKey` on every route pattern, and the
renderer's inlined `paramPlaceholder` agrees with the deploy-time
`paramPlaceholder` on every parameter name. -/
theorem c9_inlined_copies_agree :
    (∀ p : JsStr, Renderer.deriveFallbackKey p = Fallback.getFallbackKey p) ∧
    (∀ n : JsStr, Renderer.paramPlaceholder n = Fallback.paramPlaceholder n) :=
  ⟨fun _ => rfl, fun _ => rfl⟩

/-- C6 counterexample: the claim derives the artifact key by
"strip leading slash, strip trailing slash, append `.html`", but for a
request path already carrying the `.html` suffix the code returns the
stripped path unchanged instead of appending another `.html`. -/
theorem c6_artifact_key_counterexample :
    Renderer.deriveS3Key (jstr "/about.html") = jstr "about.html" ∧
    dropOneTrailing '/' (dropOneLeading '/' (jstr "/about.html")) ++ jstr ".html"
      = jstr "about.html.html" ∧
    Renderer.deriveS3Key (jstr "/about.html") ≠
      dropOneTrailing '/' (dropOneLeading '/' (jstr "/about.html")) ++ jstr ".html" := by
  refine ⟨by decide, by decide, by decide⟩

/-- C6 (amended): the artifact key strips one leading and one trailing slash
and appends `.html`, except that a stripped path already ending in `.html`
is returned unchanged; the empty path maps to `index.html`.  In particular
`/product/42` and `/product/42/` both yield `product/42.html` and `/`
yields `index.html`. -/
theorem c6_artifact_key_amended :
    Renderer.deriveS3Key (jstr "/product/42") = jstr "product/42.html" ∧
    Renderer.deriveS3Key (jstr "/product/42/") = jstr "product/42.html" ∧
    Renderer.deriveS3Key (jstr "/") = jstr "index.html" ∧
    ∀ uri : JsStr,
      Renderer.deriveS3Key uri =
        (let stripped := dropOneTrailing '/' (dropOneLeading '/' uri)
         if stripped = [] then jstr "index.html"
         else if jsEndsWith (jstr ".html") stripped then stripped
         else stripped ++ jstr ".html") := by
  refine ⟨by decide, by decide, by decide, fun uri => rfl⟩

/-- C1: for every inbound request event the forward-only Edge Decision
Function terminates by forwarding the request to the object store — it never
returns a function-synthesized response, whatever the store, manifest and
renderer outcomes are; in particular a failing renderer invocation still
results in a forward. -/
theorem c1_edge_decision_always_forwards :
    ∀ (env : EdgeHandler.EdgeEnv) (event : EdgeHandler.CloudFrontRequestEvent),
      (EdgeHandler.handler env event).1 =
        EdgeHandler.EdgeResult.forward event.request := by
  intro env event
  unfold EdgeHandler.handler
  dsimp only
  repeat' split
  all_goals rfl

/-- C5 counterexample: substituting parameter `a`'s placeholder does not
always leave parameter `b`'s placeholder untouched — in a document where the
two placeholder tokens overlap, replacing `a`'s token destroys `b`'s token,
and the two substitution orders produce different documents. -/
theorem c5_cross_contamination_counterexample :
    containsSub (Renderer.paramPlaceholder (jstr "b"))
      (Renderer.paramPlaceholder (jstr "a") ++ jstr "QLARA_FALLBACK_b__") = true ∧
    containsSub (Renderer.paramPlaceholder (jstr "b"))
      (Renderer.substPlaceholders [(jstr "a", jstr "42")]
        (Renderer.paramPlaceholder (jstr "a") ++ jstr "QLARA_FALLBACK_b__")) = false ∧
    Renderer.substPlaceholders [(jstr "a", jstr "42"), (jstr "b", jstr "7")]
        (Renderer.paramPlaceholder (jstr "a") ++ jstr "QLARA_FALLBACK_b__") ≠
      Renderer.substPlaceholders [(jstr "b", jstr "7"), (jstr "a", jstr "42")]
        (Renderer.paramPlaceholder (jstr "a") ++ jstr "QLARA_FALLBACK_b__") := by
  refine ⟨by decide, by decide, by decide⟩

/-- C3: evaluation of the renderer at the failing input.  The route's
metadata generator returns `null` ("page does not exist"), yet the renderer
does not produce a not-found outcome: it returns success (status 200) and
persists the placeholder-substituted artifact for the path. -/
theorem c3_null_metadata_persists_artifact :
    (∃ f, Examples.nullMetadataRoute.generateMetadata = some f ∧
      f Examples.product404Event.params = .ok none) ∧
    (Renderer.handler Examples.nullMetadataCfg Examples.storeWithFallback
        Examples.product404Event).1.statusCode = 200 ∧
    (Renderer.handler Examples.nullMetadataCfg Examples.storeWithFallback
        Examples.product404Event).2 =
      [(jstr "product/404.html", jstr "<html>404</html>")] := by
  refine ⟨⟨fun _ => .ok none, rfl, rfl⟩, by decide, by decide⟩

/-- C4 counterexample: a store I/O failure does not always abort "before
persistence with nothing persisted" — when the secondary RSC `.txt` upload
rejects, the renderer returns a failure result although the main artifact
has already been written by the same invocation. -/
theorem c4_post_persist_failure_counterexample :
    (Renderer.handler Examples.nextNoRoutesCfg Examples.storeTxtPutFailing
        Examples.p1Event).1.statusCode = 500 ∧
    (Renderer.handler Examples.nextNoRoutesCfg Examples.storeTxtPutFailing
        Examples.p1Event).2 =
      [(jstr "p/1.html", Examples.rscFallbackHtml)] := by
  refine ⟨by decide, by decide⟩

/-- C8 counterexample: an invocation for a path whose artifact already
exists in the store does not always return that stored content — when the
per-route validation hook rejects the params, the renderer returns a
not-found result instead of the stored artifact. -/
theorem c8_dedup_counterexample :
    Examples.storeWithArtifact.get
        (Renderer.deriveS3Key Examples.product42Event.uri) =
      .ok (jstr "cached") ∧
    (Renderer.handler Examples.rejectCfg Examples.storeWithArtifact
        Examples.product42Event).1.statusCode = 404 ∧
    (Renderer.handler Examples.rejectCfg Examples.storeWithArtifact
        Examples.product42Event).1.html ≠ some (jstr "cached") := by
  refine ⟨rfl, by decide, by decide⟩

end Qlara

namespace Qlara

/-! ### Splitting lemmas for rendered patterns -/

theorem jsSplit_sepFree (sep : Char) (xs : JsStr) (h : ∀ c ∈ xs, c ≠ sep) :
    jsSplit sep xs = [xs] := by
  induction xs with
  | nil => rfl
  | cons c rest ih =>
    have hc : c ≠ sep := h c (by simp)
    have hr := ih (fun d hd => h d (by simp [hd]))
    simp [jsSplit, hc, hr]

theorem jsSplit_append_cons (sep : Char) (xs rest : JsStr)
    (h : ∀ c ∈ xs, c ≠ sep) :
    jsSplit sep (xs ++ sep :: rest) = xs :: jsSplit sep rest := by
  induction xs with
  | nil => simp [jsSplit]
  | cons c xs ih =>
    have hc : c ≠ sep := h c (by simp)
    have hr := ih (fun d hd => h d (by simp [hd]))
    simp [jsSplit, hc, hr]

theorem patSeg_no_slash {seg : Model.VSeg} (h : Model.wfSeg seg = true) :
    ∀ c ∈ Model.patSegChars seg, c ≠ '/' := by
  cases seg with
  | lit s =>
    intro c hc
    simp only [Model.wfSeg, Bool.and_eq_true, List.all_eq_true] at h
    have := h.2 c hc
    simp [Model.goodLitChar] at this
    exact this.1.1
  | dyn n v =>
    intro c hc
    simp only [Model.patSegChars, List.mem_cons] at hc
    rcases hc with rfl | hc
    · decide
    · simp only [Model.wfSeg, Bool.and_eq_true, List.all_eq_true] at h
      have := h.1.1.2 c hc
      simp [Model.goodNameChar] at this
      exact this.1.1.1

theorem jsSplit_patChars (Q : List Model.VSeg) (seg : Model.VSeg)
    (hseg : Model.wfSeg seg = true) (hQ : Q.all Model.wfSeg = true) :
    jsSplit '/' (Model.patSegChars seg ++ Model.patChars Q) =
      Model.patSegChars seg :: Q.map Model.patSegChars := by
  induction Q generalizing seg with
  | nil =>
    simpa [Model.patChars] using jsSplit_sepFree '/' _ (patSeg_no_slash hseg)
  | cons t Q ih =>
    simp only [List.all_cons, Bool.and_eq_true] at hQ
    have step : Model.patSegChars seg ++ Model.patChars (t :: Q) =
        Model.patSegChars seg ++ '/' :: (Model.patSegChars t ++ Model.patChars Q) := rfl
    rw [step, jsSplit_append_cons '/' _ _ (patSeg_no_slash hseg), ih t hQ.1 hQ.2]
    rfl

theorem filter_patSeg (Q : List Model.VSeg) (hQ : Q.all Model.wfSeg = true) :
    (Q.map Model.patSegChars).filter
        (fun p => !jsStartsWith (jstr ":") p) = Model.litSegs Q := by
  induction Q with
  | nil => rfl
  | cons seg Q ih =>
    simp only [List.all_cons, Bool.and_eq_true] at hQ
    cases seg with
    | lit s =>
      have hs : jsStartsWith (jstr ":") s = false := by
        simp only [Model.wfSeg, Bool.and_eq_true, List.all_eq_true] at hQ
        cases s with
        | nil => simp at hQ
        | cons c cs =>
          have := hQ.1.2 c (by simp)
          simp [Model.goodLitChar] at this
          simp [jsStartsWith, jstr, List.isPrefixOf]
          exact fun h => absurd h.symm this.1.2
      simp [Model.patSegChars, Model.litSegs, List.filter, hs, ih hQ.2]
    | dyn n v =>
      have hs : jsStartsWith (jstr ":") (Model.patSegChars (Model.VSeg.dyn n v)) = true := by
        simp [jsStartsWith, jstr, Model.patSegChars, List.isPrefixOf]
      simp [Model.litSegs, List.filter, hs, ih hQ.2]

/-- C7: for every well-formed route pattern, the fallback-template key is the
pattern's static segments joined by `/` followed by the fixed template
filename `_fallback.html`; a pattern whose every segment is dynamic yields
the template filename at root (the join of the empty static list). -/
theorem c7_fallback_key_of_pattern (Q : List Model.VSeg)
    (h : Model.wfPat Q = true) :
    Renderer.deriveFallbackKey (Model.patChars Q) =
      jsJoin '/' (Model.litSegs Q ++ [jstr "_fallback.html"]) := by
  cases Q with
  | nil => simp [Model.wfPat] at h
  | cons seg Q' =>
    have hall : Model.wfSeg seg = true ∧ Q'.all Model.wfSeg = true := by
      simp only [Model.wfPat, List.all_cons, Bool.and_eq_true] at h
      exact h.2
    have h1 : dropOneLeading '/' (Model.patChars (seg :: Q')) =
        Model.patSegChars seg ++ Model.patChars Q' := by
      simp [Model.patChars, dropOneLeading]
    have h2 := jsSplit_patChars Q' seg hall.1 hall.2
    have h3 := filter_patSeg (seg :: Q')
      (by simp [List.all_cons, hall.1, hall.2])
    simp only [List.map] at h3
    simp only [Renderer.deriveFallbackKey, h1, h2]
    simp [h3]

end Qlara

namespace Qlara

/-- C7 witness: the theorem applied to the claim's three example patterns
`/product/:id`, `/:lang/products/:id` and `/:a/:b/:c`, whose fallback keys
evaluate to `product/_fallback.html`, `products/_fallback.html` and
`_fallback.html`. -/
theorem c7_fallback_key_of_pattern_witness :
    (Model.wfPat Examples.exProductId = true ∧
     Model.patChars Examples.exProductId = jstr "/product/:id" ∧
     Renderer.deriveFallbackKey (Model.patChars Examples.exProductId) =
       jsJoin '/' (Model.litSegs Examples.exProductId ++ [jstr "_fallback.html"]) ∧
     jsJoin '/' (Model.litSegs Examples.exProductId ++ [jstr "_fallback.html"]) =
       jstr "product/_fallback.html") ∧
    (Model.wfPat Examples.exLangProducts = true ∧
     Model.patChars Examples.exLangProducts = jstr "/:lang/products/:id" ∧
     Renderer.deriveFallbackKey (Model.patChars Examples.exLangProducts) =
       jsJoin '/' (Model.litSegs Examples.exLangProducts ++ [jstr "_fallback.html"]) ∧
     jsJoin '/' (Model.litSegs Examples.exLangProducts ++ [jstr "_fallback.html"]) =
       jstr "products/_fallback.html") ∧
    (Model.wfPat Examples.exAllDyn = true ∧
     Model.patChars Examples.exAllDyn = jstr "/:a/:b/:c" ∧
     Renderer.deriveFallbackKey (Model.patChars Examples.exAllDyn) =
       jsJoin '/' (Model.litSegs Examples.exAllDyn ++ [jstr "_fallback.html"]) ∧
     jsJoin '/' (Model.litSegs Examples.exAllDyn ++ [jstr "_fallback.html"]) =
       jstr "_fallback.html") :=
  ⟨⟨by decide, by decide, c7_fallback_key_of_pattern Examples.exProductId (by decide),
    by decide⟩,
   ⟨by decide, by decide, c7_fallback_key_of_pattern Examples.exLangProducts (by decide),
    by decide⟩,
   ⟨by decide, by decide, c7_fallback_key_of_pattern Examples.exAllDyn (by decide),
    by decide⟩⟩

end Qlara

namespace Qlara

/-- C8 (amended): if the artifact for the requested path already exists in
the store with nonempty content when the Renderer is invoked (not a warmup),
and the per-route validation hook — if any — accepts the params, then the
Renderer returns that stored content unchanged with status 200 and performs
no write to the store in that invocation. -/
theorem c8_dedup_short_circuit_amended
    (cfg : Renderer.RendererConfig) (env : Renderer.S3Env)
    (event : Renderer.RendererEvent) (e : JsStr)
    (hw : event.warmup = false)
    (hval : match (cfg.routes.find? (fun r => r.route = event.routePattern)).bind
        Renderer.RouteDef.validate with
      | some f => f event.params = Except.ok true
      | none => True)
    (hexist : env.get (Renderer.deriveS3Key event.uri) = Except.ok e)
    (hne : e ≠ []) :
    Renderer.handler cfg env event =
      (⟨200, Renderer.alreadyRenderedBody event.uri (Renderer.deriveS3Key event.uri),
        some e⟩, []) := by
  cases hv : (cfg.routes.find? (fun r => r.route = event.routePattern)).bind
      Renderer.RouteDef.validate with
  | none =>
    simp [Renderer.handler, hw, hv, Renderer.handlerRenderSteps, hexist, hne]
  | some f =>
    rw [hv] at hval
    simp [Renderer.handler, hw, hv, hval, Renderer.handlerRenderSteps, hexist, hne]

/-- C8 amended witness: the store holds `cached` at `product/42.html`, the
route's validation hook accepts, and the renderer returns the stored content
with no writes. -/
theorem c8_dedup_short_circuit_amended_witness :
    (Examples.product42Event.warmup = false ∧
     Examples.storeWithArtifact.get
        (Renderer.deriveS3Key Examples.product42Event.uri) =
       Except.ok (jstr "cached") ∧
     jstr "cached" ≠ []) ∧
    Renderer.handler Examples.acceptCfg Examples.storeWithArtifact
        Examples.product42Event =
      (⟨200, Renderer.alreadyRenderedBody Examples.product42Event.uri
          (Renderer.deriveS3Key Examples.product42Event.uri),
        some (jstr "cached")⟩, []) :=
  ⟨⟨rfl, rfl, by decide⟩,
   c8_dedup_short_circuit_amended Examples.acceptCfg Examples.storeWithArtifact
     Examples.product42Event (jstr "cached") rfl rfl rfl (by decide)⟩

theorem nextSteps_nonNext (cfg : Renderer.RendererConfig) (env : Renderer.S3Env)
    (event : Renderer.RendererEvent) (md : Option Renderer.QlaraMetadata)
    (html : JsStr) (s3Key : JsStr) (w0 : List (JsStr × JsStr))
    (hfw : cfg.framework ≠ jstr "next") :
    Renderer.handlerNextSteps cfg env event md html s3Key w0 =
      (⟨200, Renderer.renderedBody event.uri s3Key, some html⟩, w0) := by
  unfold Renderer.handlerNextSteps
  simp [hfw]

theorem nextSteps_writes_head (cfg : Renderer.RendererConfig)
    (env : Renderer.S3Env) (event : Renderer.RendererEvent)
    (md : Option Renderer.QlaraMetadata) (html : JsStr) (s3Key : JsStr)
    (x : JsStr × JsStr) :
    ((Renderer.handlerNextSteps cfg env event md html s3Key [x]).2).head? =
      some x := by
  unfold Renderer.handlerNextSteps
  dsimp only
  repeat' split
  all_goals simp

theorem metaSteps_writes (cfg : Renderer.RendererConfig) (env : Renderer.S3Env)
    (event : Renderer.RendererEvent) (rd : Option Renderer.RouteDef)
    (html1 : JsStr) (s3Key : JsStr) :
    (Renderer.handlerMetadataSteps cfg env event rd html1 s3Key).2 = [] ∨
      ∃ body, ((Renderer.handlerMetadataSteps cfg env event rd html1 s3Key).2).head? =
        some (s3Key, body) := by
  unfold Renderer.handlerMetadataSteps
  dsimp only
  repeat' split
  all_goals first
    | exact Or.inl rfl
    | exact Or.inr ⟨_, nextSteps_writes_head ..⟩

theorem metaSteps_nonNext_fail (cfg : Renderer.RendererConfig)
    (env : Renderer.S3Env) (event : Renderer.RendererEvent)
    (rd : Option Renderer.RouteDef) (html1 : JsStr) (s3Key : JsStr)
    (hfw : cfg.framework ≠ jstr "next") :
    (Renderer.handlerMetadataSteps cfg env event rd html1 s3Key).1.statusCode ≠ 200 →
      (Renderer.handlerMetadataSteps cfg env event rd html1 s3Key).2 = [] := by
  unfold Renderer.handlerMetadataSteps
  dsimp only
  repeat' split
  all_goals first
    | (intro _; rfl)
    | (rw [nextSteps_nonNext cfg env event _ _ s3Key _ hfw]
       intro h
       exact absurd rfl h)

theorem renderSteps_writes (cfg : Renderer.RendererConfig) (env : Renderer.S3Env)
    (event : Renderer.RendererEvent) (rd : Option Renderer.RouteDef) :
    (Renderer.handlerRenderSteps cfg env event rd).2 = [] ∨
      ∃ body, ((Renderer.handlerRenderSteps cfg env event rd).2).head? =
        some (Renderer.deriveS3Key event.uri, body) := by
  unfold Renderer.handlerRenderSteps
  dsimp only
  repeat' split
  all_goals first
    | exact Or.inl rfl
    | exact metaSteps_writes ..

theorem renderSteps_nonNext_fail (cfg : Renderer.RendererConfig)
    (env : Renderer.S3Env) (event : Renderer.RendererEvent)
    (rd : Option Renderer.RouteDef) (hfw : cfg.framework ≠ jstr "next") :
    (Renderer.handlerRenderSteps cfg env event rd).1.statusCode ≠ 200 →
      (Renderer.handlerRenderSteps cfg env event rd).2 = [] := by
  unfold Renderer.handlerRenderSteps
  dsimp only
  repeat' split
  all_goals first
    | (intro _; rfl)
    | exact metaSteps_nonNext_fail cfg env event _ _ _ hfw

/-- C4 (amended): any failure arising before the main artifact write aborts
the render with nothing persisted — outside the Next.js post-persistence
uploads, a failure result always comes with an empty write set — and
whatever the framework, an invocation's write set is either empty or begins
with the main artifact at the path's deterministic key (so a nonempty write
set on failure means the main artifact itself was already persisted, the
post-persistence case exhibited by the counterexample). -/
theorem c4_failure_persistence_amended :
    (∀ (cfg : Renderer.RendererConfig) (env : Renderer.S3Env)
        (event : Renderer.RendererEvent),
      cfg.framework ≠ jstr "next" →
      (Renderer.handler cfg env event).1.statusCode ≠ 200 →
      (Renderer.handler cfg env event).2 = []) ∧
    (∀ (cfg : Renderer.RendererConfig) (env : Renderer.S3Env)
        (event : Renderer.RendererEvent),
      (Renderer.handler cfg env event).2 = [] ∨
        ∃ body, ((Renderer.handler cfg env event).2).head? =
          some (Renderer.deriveS3Key event.uri, body)) := by
  constructor
  · intro cfg env event hfw
    unfold Renderer.handler
    dsimp only
    repeat' split
    all_goals first
      | (intro _; rfl)
      | exact renderSteps_nonNext_fail cfg env event _ hfw
  · intro cfg env event
    unfold Renderer.handler
    dsimp only
    repeat' split
    all_goals first
      | exact Or.inl rfl
      | exact renderSteps_writes ..

/-- C4 amended witness: a non-Next renderer invocation that fails (missing
fallback template, status 500) persists nothing. -/
theorem c4_failure_persistence_amended_witness :
    (Examples.viteNoRoutesCfg.framework ≠ jstr "next" ∧
     (Renderer.handler Examples.viteNoRoutesCfg Examples.emptyFailingStore
        Examples.xEvent).1.statusCode ≠ 200) ∧
    (Renderer.handler Examples.viteNoRoutesCfg Examples.emptyFailingStore
        Examples.xEvent).2 = [] :=
  ⟨⟨by decide, by decide⟩,
   c4_failure_persistence_amended.1 Examples.viteNoRoutesCfg
     Examples.emptyFailingStore Examples.xEvent (by decide) (by decide)⟩

end Qlara

namespace Qlara

/-! ### Occurrence-preservation for global literal replacement -/

theorem not_containsSub_no_occurrence (pat s : JsStr) (hne : pat ≠ [])
    (h : containsSub pat s = false) : ∀ q, ¬ pat.isPrefixOf (s.drop q) := by
  induction s with
  | nil =>
    intro q hq
    cases pat with
    | nil => exact hne rfl
    | cons x xs => simp [List.isPrefixOf] at hq
  | cons c rest ih =>
    intro q
    simp only [containsSub, Bool.or_eq_false_iff] at h
    cases q with
    | zero =>
      intro hq
      simp only [List.drop_zero] at hq
      exact absurd hq (by simp [h.1])
    | succ m => exact ih h.2 m

theorem replaceAllFuel_copy (p : Char) (ps rep : JsStr) :
    ∀ (k : Nat) (fuel : Nat) (s : JsStr), s.length ≤ fuel → k ≤ s.length →
      (∀ q < k, ¬ (p :: ps).isPrefixOf (s.drop q)) →
      replaceAllSubFuel p ps rep fuel s =
        s.take k ++ replaceAllSubFuel p ps rep (fuel - k) (s.drop k) := by
  intro k
  induction k with
  | zero => intro fuel s _ _ _; simp
  | succ k ih =>
    intro fuel s hs hk hno
    match s, fuel with
    | [], _ => simp at hk
    | c :: rest, 0 => simp at hs
    | c :: rest, f + 1 =>
      have hm : ¬ (p :: ps).isPrefixOf (c :: rest) := by
        have := hno 0 (Nat.succ_pos k)
        simpa using this
      have step : replaceAllSubFuel p ps rep (f + 1) (c :: rest) =
          c :: replaceAllSubFuel p ps rep f rest := by
        simp only [replaceAllSubFuel]
        rw [if_neg hm]
      have hrec := ih f rest (by simpa using hs) (by simpa using hk)
        (fun q hq => by simpa using hno (q + 1) (by omega))
      rw [step, hrec]
      simp [Nat.succ_sub_succ]

theorem replaceAll_window (p : Char) (ps rep tokB : JsStr) :
    ∀ (fuel : Nat) (s : JsStr) (n : Nat), s.length ≤ fuel →
      tokB.isPrefixOf (s.drop n) →
      (∀ q, (p :: ps).isPrefixOf (s.drop q) →
        q + (p :: ps).length ≤ n ∨ n + tokB.length ≤ q) →
      ∃ u' w', replaceAllSubFuel p ps rep fuel s = u' ++ tokB ++ w' := by
  intro fuel
  induction fuel with
  | zero =>
    intro s n hs hocc _
    have hsnil : s = [] := List.eq_nil_of_length_eq_zero (Nat.le_zero.mp hs)
    subst hsnil
    cases tokB with
    | nil => exact ⟨[], [], by simp [replaceAllSubFuel]⟩
    | cons x xs => simp [List.isPrefixOf] at hocc
  | succ f ih =>
    intro s n hs hocc hno
    match s with
    | [] =>
      cases tokB with
      | nil => exact ⟨[], [], by simp [replaceAllSubFuel]⟩
      | cons x xs => simp [List.isPrefixOf] at hocc
    | c :: rest =>
      by_cases hm : (p :: ps).isPrefixOf (c :: rest)
      · rcases hno 0 hm with hle | hB0
        · simp only [Nat.zero_add, List.length_cons] at hle
          have hdrop : ((c :: rest).drop (ps.length + 1)).drop (n - (ps.length + 1)) =
              (c :: rest).drop n := by
            rw [List.drop_drop]
            congr 1
            omega
          obtain ⟨u', w', h⟩ := ih ((c :: rest).drop (ps.length + 1))
            (n - (ps.length + 1))
            (by simp only [List.length_drop, List.length_cons] at hs ⊢; omega)
            (by rw [hdrop]; exact hocc)
            (by
              intro q hq
              rw [List.drop_drop] at hq
              rcases hno (ps.length + 1 + q) hq with h1 | h2
              · left; simp only [List.length_cons] at h1 ⊢; omega
              · right; omega)
          refine ⟨rep ++ u', w', ?_⟩
          have step : replaceAllSubFuel p ps rep (f + 1) (c :: rest) =
              rep ++ replaceAllSubFuel p ps rep f ((c :: rest).drop (ps.length + 1)) := by
            simp only [replaceAllSubFuel]
            rw [if_pos hm]
          rw [step, h]
          simp
        · have hB : tokB = [] := by
            have : tokB.length = 0 := by omega
            exact List.eq_nil_of_length_eq_zero this
          subst hB
          exact ⟨replaceAllSubFuel p ps rep (f + 1) (c :: rest), [], by simp⟩
      · cases n with
        | zero =>
          cases hB : tokB with
          | nil => exact ⟨replaceAllSubFuel p ps rep (f + 1) (c :: rest), [], by simp⟩
          | cons x xs =>
            rw [← hB]
            have hoccB : tokB.isPrefixOf (c :: rest) := by simpa using hocc
            obtain ⟨t2, ht2⟩ : ∃ t2, tokB ++ t2 = c :: rest :=
              (List.isPrefixOf_iff_prefix.mp hoccB)
            have hkle : tokB.length ≤ (c :: rest).length := by
              rw [← ht2]; simp
            have hcopy := replaceAllFuel_copy p ps rep tokB.length (f + 1)
              (c :: rest) hs hkle
              (by
                intro q hq hpre
                rcases hno q hpre with h1 | h2
                · simp only [List.length_cons] at h1; omega
                · omega)
            have htake : (c :: rest).take tokB.length = tokB := by
              rw [← ht2, List.take_left]
            exact ⟨[], replaceAllSubFuel p ps rep (f + 1 - tokB.length)
              ((c :: rest).drop tokB.length), by rw [hcopy, htake]; simp⟩
        | succ m =>
          have step : replaceAllSubFuel p ps rep (f + 1) (c :: rest) =
              c :: replaceAllSubFuel p ps rep f rest := by
            simp only [replaceAllSubFuel]
            rw [if_neg hm]
          obtain ⟨u', w', h⟩ := ih rest m (by simpa using hs)
            (by simpa using hocc)
            (by
              intro q hq
              have : (p :: ps).isPrefixOf ((c :: rest).drop (q + 1)) := by simpa using hq
              rcases hno (q + 1) this with h1 | h2
              · left; omega
              · right; omega)
          exact ⟨c :: u', w', by rw [step, h]; simp⟩

end Qlara

namespace Qlara

/-- C5 (amended): for a parameter name A free of regex metacharacters — the
domain on which the dynamically built `new RegExp(paramPlaceholder(A), 'g')`
is a literal pattern, so the global replacement replaces exactly the literal
occurrences of A's token — substituting A's placeholder leaves parameter B's
placeholder occurrence unchanged provided no occurrence of A's placeholder
token in the document overlaps that occurrence of B's token — in particular
whenever A's token does not occur in the document at all.  (The
counterexample shows the unrestricted claim fails on documents with
overlapping placeholder-like text; for names with metacharacters the built
regex is not literal and the literal model below does not apply.  The
replacement value is immaterial to the conclusion: even under JavaScript's
`$`-sequence interpretation the set of replaced windows is fixed by the
pattern alone, and the surviving occurrence of B's token is outside them.) -/
theorem c5_substitution_preserves_other_placeholder_amended
    (A B v u w : JsStr)
    (_hA : ∀ c ∈ A, c ∉ jsRegexMetachars)
    (hno : ∀ q, (Renderer.paramPlaceholder A).isPrefixOf
        ((u ++ Renderer.paramPlaceholder B ++ w).drop q) →
      q + (Renderer.paramPlaceholder A).length ≤ u.length ∨
      u.length + (Renderer.paramPlaceholder B).length ≤ q) :
    ∃ u' w', Renderer.substPlaceholders [(A, v)]
        (u ++ Renderer.paramPlaceholder B ++ w) =
      u' ++ Renderer.paramPlaceholder B ++ w' := by
  cases hA : Renderer.paramPlaceholder A with
  | nil =>
    have hlen := congrArg List.length hA
    simp only [Renderer.paramPlaceholder, List.length_append, List.length_nil] at hlen
    rw [show (jstr "__QLARA_FALLBACK_").length = 17 from rfl,
      show (jstr "__").length = 2 from rfl] at hlen
    omega
  | cons p ps =>
    have hsub : Renderer.substPlaceholders [(A, v)]
        (u ++ Renderer.paramPlaceholder B ++ w) =
        replaceAllSub p ps v (u ++ Renderer.paramPlaceholder B ++ w) := by
      simp [Renderer.substPlaceholders, hA]
    rw [hsub]
    rw [hA] at hno
    have hocc : (Renderer.paramPlaceholder B).isPrefixOf
        ((u ++ Renderer.paramPlaceholder B ++ w).drop u.length) := by
      rw [List.append_assoc, List.drop_left]
      exact List.isPrefixOf_iff_prefix.mpr (List.prefix_append _ _)
    exact replaceAll_window p ps v (Renderer.paramPlaceholder B) _ _ u.length
      le_rfl hocc hno

/-- C5 amended witness: `id` is a metacharacter-free name, and in a document
where A's token (`id`) does not occur at all, substituting A leaves B's
(`lang`) placeholder occurrence intact. -/
theorem c5_substitution_preserves_other_placeholder_amended_witness :
    (∀ c ∈ jstr "id", c ∉ jsRegexMetachars) ∧
    containsSub (Renderer.paramPlaceholder (jstr "id"))
      (jstr "value=" ++ Renderer.paramPlaceholder (jstr "lang") ++ jstr ";") = false ∧
    ∃ u' w', Renderer.substPlaceholders [(jstr "id", jstr "42")]
        (jstr "value=" ++ Renderer.paramPlaceholder (jstr "lang") ++ jstr ";") =
      u' ++ Renderer.paramPlaceholder (jstr "lang") ++ w' :=
  ⟨by decide, by decide,
   c5_substitution_preserves_other_placeholder_amended
     (jstr "id") (jstr "lang") (jstr "42") (jstr "value=") (jstr ";")
     (by decide)
     (fun q hq => absurd hq
       (not_containsSub_no_occurrence _ _ (by decide) (by decide) q))⟩

end Qlara

namespace Qlara

/-! ### Regex-generation lemmas for well-formed patterns -/

theorem parseItems_backslash (c : Char) (xs : JsStr) :
    Routes.parseItems ('\\' :: c :: xs) =
      (Routes.parseItems xs).map (Routes.RItem.lit c :: ·) := rfl

theorem parseItems_groupHead (xs : JsStr) :
    Routes.parseItems (Routes.groupChars ++ xs) =
      (Routes.parseItems xs).map (Routes.RItem.group :: ·) := rfl

theorem parseItems_plain (c : Char) (xs : JsStr) (h : c ∉ jsRegexMetachars) :
    Routes.parseItems (c :: xs) =
      (Routes.parseItems xs).map (Routes.RItem.lit c :: ·) := by
  have h1 : c ≠ '$' := fun hc => h (by simp [hc, jsRegexMetachars])
  have h2 : c ≠ '\\' := fun hc => h (by simp [hc, jsRegexMetachars])
  have h3 : c ≠ '(' := fun hc => h (by simp [hc, jsRegexMetachars])
  cases xs with
  | nil => simp [Routes.parseItems, h1, h2, h3, h]
  | cons d rest => simp [Routes.parseItems, h1, h2, h3, h]

theorem parseItems_escape (s : JsStr) (xs : JsStr) :
    Routes.parseItems (Routes.escapeChars s ++ xs) =
      (Routes.parseItems xs).map (fun items => s.map Routes.RItem.lit ++ items) := by
  induction s with
  | nil =>
    cases h : Routes.parseItems xs <;> simp [Routes.escapeChars, h]
  | cons c s ih =>
    by_cases hc : c ∈ jsRegexMetachars
    · have : Routes.escapeChars (c :: s) ++ xs =
          '\\' :: c :: (Routes.escapeChars s ++ xs) := by
        simp [Routes.escapeChars, hc]
      rw [this, parseItems_backslash, ih]
      cases h : Routes.parseItems xs <;> simp
    · have : Routes.escapeChars (c :: s) ++ xs =
          c :: (Routes.escapeChars s ++ xs) := by
        simp [Routes.escapeChars, hc]
      rw [this, parseItems_plain c _ hc, ih]
      cases h : Routes.parseItems xs <;> simp

theorem escapeChars_append (xs ys : JsStr) :
    Routes.escapeChars (xs ++ ys) =
      Routes.escapeChars xs ++ Routes.escapeChars ys := by
  induction xs with
  | nil => rfl
  | cons c xs ih => by_cases hc : c ∈ jsRegexMetachars <;>
      simp [Routes.escapeChars, hc, ih]

theorem escapeChars_id (xs : JsStr) (h : ∀ c ∈ xs, c ∉ jsRegexMetachars) :
    Routes.escapeChars xs = xs := by
  induction xs with
  | nil => rfl
  | cons c xs ih =>
    simp [Routes.escapeChars, h c (by simp),
      ih (fun d hd => h d (by simp [hd]))]

theorem escapeChars_no_colon (xs : JsStr) (h : ∀ c ∈ xs, c ≠ ':') :
    ∀ c ∈ Routes.escapeChars xs, c ≠ ':' := by
  induction xs with
  | nil => simp [Routes.escapeChars]
  | cons c xs ih =>
    intro d hd
    by_cases hc : c ∈ jsRegexMetachars <;>
      simp only [Routes.escapeChars, hc, if_pos, if_neg, List.cons_append,
        List.nil_append, List.mem_cons, ite_true, ite_false] at hd
    · rcases hd with rfl | rfl | hd
      · decide
      · exact h d (by simp)
      · exact ih (fun e he => h e (by simp [he])) d hd
    · rcases hd with rfl | hd
      · exact h d (by simp)
      · exact ih (fun e he => h e (by simp [he])) d hd

theorem escapeChars_headSlash (t : JsStr) :
    Routes.escapeChars ('/' :: t) = '/' :: Routes.escapeChars t := by
  simp [Routes.escapeChars, jsRegexMetachars]

theorem takeWhile_all (p : Char → Bool) (l : JsStr) (h : ∀ c ∈ l, p c = true) :
    l.takeWhile p = l := by
  induction l with
  | nil => rfl
  | cons c l ih =>
    simp [List.takeWhile_cons, h c (by simp),
      ih (fun d hd => h d (by simp [hd]))]

theorem takeWhile_append_of_all (p : Char → Bool) (xs ys : JsStr)
    (h1 : ∀ c ∈ xs, p c = true)
    (h2 : ∀ d, ys.head? = some d → p d = false) :
    (xs ++ ys).takeWhile p = xs := by
  induction xs with
  | nil =>
    cases ys with
    | nil => rfl
    | cons d t => simp [List.takeWhile_cons, h2 d rfl]
  | cons c xs ih =>
    simp [List.takeWhile_cons, h1 c (by simp),
      ih (fun d hd => h1 d (by simp [hd]))]

end Qlara

namespace Qlara

theorem rpwg_skip (xs : JsStr) :
    ∀ (fuel : Nat) (ys : JsStr), (xs ++ ys).length ≤ fuel →
      (∀ c ∈ xs, c ≠ ':') →
      Routes.replaceParamsWithGroupsFuel fuel (xs ++ ys) =
        xs ++ Routes.replaceParamsWithGroupsFuel (fuel - xs.length) ys := by
  induction xs with
  | nil => intro fuel ys _ _; simp
  | cons c xs ih =>
    intro fuel ys hf hx
    match fuel with
    | 0 => simp at hf
    | f + 1 =>
      have step : Routes.replaceParamsWithGroupsFuel (f + 1) (c :: (xs ++ ys)) =
          c :: Routes.replaceParamsWithGroupsFuel f (xs ++ ys) := by
        simp only [Routes.replaceParamsWithGroupsFuel]
        rw [if_neg (hx c (by simp))]
      have hrec := ih f ys (by simpa using hf) (fun d hd => hx d (by simp [hd]))
      simp only [List.cons_append, step, hrec, List.length_cons,
        Nat.succ_sub_succ]

theorem rpwg_dyn (fuel : Nat) (name ys : JsStr)
    (hf : (':' :: (name ++ ys)).length ≤ fuel)
    (hname : name ≠ []) (hslash : ∀ c ∈ name, c ≠ '/')
    (hys : ∀ d, ys.head? = some d → d = '/') :
    Routes.replaceParamsWithGroupsFuel fuel (':' :: (name ++ ys)) =
      Routes.groupChars ++ Routes.replaceParamsWithGroupsFuel (fuel - 1) ys := by
  match fuel with
  | 0 => simp at hf
  | f + 1 =>
    have htw : (name ++ ys).takeWhile (· ≠ '/') = name := by
      apply takeWhile_append_of_all
      · intro c hc; simpa using hslash c hc
      · intro d hd; simpa using hys d hd
    simp only [Routes.replaceParamsWithGroupsFuel, if_pos rfl, htw]
    rw [if_neg hname, List.drop_left]
    simp

theorem epn_skip (xs : JsStr) :
    ∀ (fuel : Nat) (ys : JsStr), (xs ++ ys).length ≤ fuel →
      (∀ c ∈ xs, c ≠ ':') →
      Routes.extractParamNamesFuel fuel (xs ++ ys) =
        Routes.extractParamNamesFuel (fuel - xs.length) ys := by
  induction xs with
  | nil => intro fuel ys _ _; simp
  | cons c xs ih =>
    intro fuel ys hf hx
    match fuel with
    | 0 => simp at hf
    | f + 1 =>
      have step : Routes.extractParamNamesFuel (f + 1) (c :: (xs ++ ys)) =
          Routes.extractParamNamesFuel f (xs ++ ys) := by
        simp only [Routes.extractParamNamesFuel]
        rw [if_neg (hx c (by simp))]
      have hrec := ih f ys (by simpa using hf) (fun d hd => hx d (by simp [hd]))
      simp only [List.cons_append, step, hrec, List.length_cons,
        Nat.succ_sub_succ]

theorem epn_dyn (fuel : Nat) (name ys : JsStr)
    (hf : (':' :: (name ++ ys)).length ≤ fuel)
    (hname : name ≠ []) (hslash : ∀ c ∈ name, c ≠ '/')
    (hys : ∀ d, ys.head? = some d → d = '/') :
    Routes.extractParamNamesFuel fuel (':' :: (name ++ ys)) =
      name :: Routes.extractParamNamesFuel (fuel - 1) ys := by
  match fuel with
  | 0 => simp at hf
  | f + 1 =>
    have htw : (name ++ ys).takeWhile (· ≠ '/') = name := by
      apply takeWhile_append_of_all
      · intro c hc; simpa using hslash c hc
      · intro d hd; simpa using hys d hd
    simp only [Routes.extractParamNamesFuel, if_pos rfl, htw]
    rw [if_neg hname, List.drop_left]
    simp

end Qlara

namespace Qlara

theorem wfSeg_lit {s : JsStr} (h : Model.wfSeg (Model.VSeg.lit s) = true) :
    s ≠ [] ∧ ∀ c ∈ s, c ≠ '/' ∧ c ≠ ':' ∧ c ≠ '?' := by
  simp only [Model.wfSeg, Bool.and_eq_true, List.all_eq_true] at h
  constructor
  · intro hnil; subst hnil; simp at h
  · intro c hc
    have := h.2 c hc
    simp [Model.goodLitChar] at this
    exact ⟨this.1.1, this.1.2, this.2⟩

theorem wfSeg_dyn {n v : JsStr} (h : Model.wfSeg (Model.VSeg.dyn n v) = true) :
    (n ≠ [] ∧ ∀ c ∈ n, c ≠ '/' ∧ c ≠ ':' ∧ c ≠ '?' ∧ c ∉ jsRegexMetachars) ∧
    (v ≠ [] ∧ ∀ c ∈ v, c ≠ '/' ∧ c ≠ '?') := by
  simp only [Model.wfSeg, Bool.and_eq_true, List.all_eq_true] at h
  refine ⟨⟨?_, ?_⟩, ?_, ?_⟩
  · intro hnil; subst hnil; simp at h
  · intro c hc
    have := h.1.1.2 c hc
    simp [Model.goodNameChar] at this
    exact ⟨this.1.1.1, this.1.1.2, this.1.2, this.2⟩
  · intro hnil; subst hnil; simp at h
  · intro c hc
    have := h.2 c hc
    simp [Model.goodValueChar] at this
    exact ⟨this.1, this.2⟩

theorem patChars_head (Q : List Model.VSeg) :
    ∀ d, (Model.patChars Q).head? = some d → d = '/' := by
  cases Q with
  | nil => intro d hd; simp [Model.patChars] at hd
  | cons seg Q' =>
    intro d hd
    simp [Model.patChars] at hd
    exact hd.symm

theorem pathChars_head (Q : List Model.VSeg) :
    ∀ d, (Model.pathChars Q).head? = some d → d = '/' := by
  cases Q with
  | nil => intro d hd; simp [Model.pathChars] at hd
  | cons seg Q' =>
    intro d hd
    simp [Model.pathChars] at hd
    exact hd.symm

theorem escape_patChars_head (Q : List Model.VSeg) :
    ∀ d, (Routes.escapeChars (Model.patChars Q)).head? = some d → d = '/' := by
  cases Q with
  | nil => intro d hd; simp [Model.patChars, Routes.escapeChars] at hd
  | cons seg Q' =>
    intro d hd
    rw [show Model.patChars (seg :: Q') =
        '/' :: (Model.patSegChars seg ++ Model.patChars Q') from rfl,
      escapeChars_headSlash] at hd
    simp at hd
    exact hd.symm

theorem extract_patChars (Q : List Model.VSeg) (h : Q.all Model.wfSeg = true) :
    ∀ fuel, (Model.patChars Q).length ≤ fuel →
      Routes.extractParamNamesFuel fuel (Model.patChars Q) = Model.dynNames Q := by
  induction Q with
  | nil => intro fuel _; cases fuel <;> rfl
  | cons seg Q' ih =>
    simp only [List.all_cons, Bool.and_eq_true] at h
    intro fuel hf
    cases seg with
    | lit s =>
      obtain ⟨hsne, hchar⟩ := wfSeg_lit h.1
      have hshape : Model.patChars (Model.VSeg.lit s :: Q') =
          ('/' :: s) ++ Model.patChars Q' := by
        simp [Model.patChars, Model.patSegChars]
      rw [hshape] at hf ⊢
      rw [epn_skip ('/' :: s) fuel _ hf ?hcolon]
      case hcolon =>
        intro c hc
        rcases List.mem_cons.mp hc with rfl | hc
        · decide
        · exact (hchar c hc).2.1
      rw [ih h.2 _ ?hlen]
      case hlen =>
        simp only [List.length_append, List.length_cons] at hf ⊢
        omega
      rfl
    | dyn n v =>
      obtain ⟨⟨hne, hnchar⟩, _⟩ := wfSeg_dyn h.1
      have hshape : Model.patChars (Model.VSeg.dyn n v :: Q') =
          ['/'] ++ (':' :: (n ++ Model.patChars Q')) := by
        simp [Model.patChars, Model.patSegChars]
      rw [hshape] at hf ⊢
      rw [epn_skip ['/'] fuel _ hf (by intro c hc; simp at hc; subst hc; decide)]
      rw [epn_dyn (fuel - (['/'] : JsStr).length) n (Model.patChars Q')
        ?hlen1 hne (fun c hc => (hnchar c hc).1) (patChars_head Q')]
      case hlen1 =>
        simp only [List.length_append, List.length_cons] at hf ⊢
        omega
      rw [ih h.2 _ ?hlen2]
      case hlen2 =>
        simp only [List.length_append, List.length_cons] at hf ⊢
        omega
      rfl

end Qlara

namespace Qlara

theorem escapeChars_cons_nonMeta (c : Char) (h : c ∉ jsRegexMetachars)
    (t : JsStr) : Routes.escapeChars (c :: t) = c :: Routes.escapeChars t := by
  simp [Routes.escapeChars, h]

theorem parse_patChars (Q : List Model.VSeg) (h : Q.all Model.wfSeg = true) :
    ∀ fuel, (Routes.escapeChars (Model.patChars Q)).length ≤ fuel →
      Routes.parseItems (Routes.replaceParamsWithGroupsFuel fuel
          (Routes.escapeChars (Model.patChars Q)) ++ ['$']) =
        some (Model.itemsOf Q) := by
  induction Q with
  | nil => intro fuel _; cases fuel <;> rfl
  | cons seg Q' ih =>
    simp only [List.all_cons, Bool.and_eq_true] at h
    intro fuel hf
    cases seg with
    | lit s =>
      obtain ⟨hsne, hchar⟩ := wfSeg_lit h.1
      have hshape : Routes.escapeChars (Model.patChars (Model.VSeg.lit s :: Q')) =
          ('/' :: Routes.escapeChars s) ++
            Routes.escapeChars (Model.patChars Q') := by
        rw [show Model.patChars (Model.VSeg.lit s :: Q') =
            '/' :: (s ++ Model.patChars Q') from rfl,
          escapeChars_headSlash, escapeChars_append]
        rfl
      rw [hshape] at hf ⊢
      rw [rpwg_skip ('/' :: Routes.escapeChars s) fuel _ hf ?hcolon]
      case hcolon =>
        intro c hc
        rcases List.mem_cons.mp hc with rfl | hc
        · decide
        · exact escapeChars_no_colon s (fun d hd => (hchar d hd).2.1) c hc
      simp only [List.append_assoc, List.cons_append]
      rw [parseItems_plain '/' _ (by decide), parseItems_escape s _,
        ih h.2 _ ?hlen]
      case hlen =>
        simp only [List.length_append, List.length_cons] at hf ⊢
        omega
      simp [Model.itemsOf, Model.segItems]
    | dyn n v =>
      obtain ⟨⟨hne, hnchar⟩, _⟩ := wfSeg_dyn h.1
      have hescn : Routes.escapeChars n = n :=
        escapeChars_id n (fun c hc => (hnchar c hc).2.2.2)
      have hshape : Routes.escapeChars (Model.patChars (Model.VSeg.dyn n v :: Q')) =
          ['/'] ++ (':' :: (n ++ Routes.escapeChars (Model.patChars Q'))) := by
        rw [show Model.patChars (Model.VSeg.dyn n v :: Q') =
            '/' :: (':' :: n ++ Model.patChars Q') from rfl,
          escapeChars_headSlash,
          show (':' :: n ++ Model.patChars Q') = ':' :: (n ++ Model.patChars Q') from rfl,
          escapeChars_cons_nonMeta ':' (by decide), escapeChars_append, hescn]
        rfl
      rw [hshape] at hf ⊢
      rw [rpwg_skip ['/'] fuel _ hf (by intro c hc; simp at hc; subst hc; decide)]
      rw [rpwg_dyn (fuel - (['/'] : JsStr).length) n _ ?hlen1 hne
        (fun c hc => (hnchar c hc).1) (escape_patChars_head Q')]
      case hlen1 =>
        simp only [List.length_append, List.length_cons] at hf ⊢
        omega
      simp only [List.append_assoc, List.cons_append, List.nil_append]
      rw [parseItems_plain '/' _ (by decide)]
      rw [show Routes.groupChars ++
          (Routes.replaceParamsWithGroupsFuel
            (fuel - (['/'] : JsStr).length - 1)
            (Routes.escapeChars (Model.patChars Q')) ++ ['$']) =
          Routes.groupChars ++
            (Routes.replaceParamsWithGroupsFuel
              (fuel - (['/'] : JsStr).length - 1)
              (Routes.escapeChars (Model.patChars Q')) ++ ['$']) from rfl]
      rw [parseItems_groupHead, ih h.2 _ ?hlen2]
      case hlen2 =>
        simp only [List.length_append, List.length_cons] at hf ⊢
        omega
      simp [Model.itemsOf, Model.segItems]

end Qlara

namespace Qlara

theorem matchItems_litPrefix (s : JsStr) (items : List Routes.RItem)
    (xs : JsStr) :
    Routes.matchItems (s.map Routes.RItem.lit ++ items) (s ++ xs) =
      Routes.matchItems items xs := by
  induction s with
  | nil => rfl
  | cons c s ih => simp [Routes.matchItems, ih]

theorem match_patChars (Q : List Model.VSeg) (h : Q.all Model.wfSeg = true) :
    Routes.matchItems (Model.itemsOf Q) (Model.pathChars Q) =
      some (Model.dynValues Q) := by
  induction Q with
  | nil => rfl
  | cons seg Q' ih =>
    simp only [List.all_cons, Bool.and_eq_true] at h
    cases seg with
    | lit s =>
      show Routes.matchItems
          (Routes.RItem.lit '/' :: (s.map Routes.RItem.lit ++ Model.itemsOf Q'))
          ('/' :: (s ++ Model.pathChars Q')) = _
      rw [show Routes.matchItems
          (Routes.RItem.lit '/' :: (s.map Routes.RItem.lit ++ Model.itemsOf Q'))
          ('/' :: (s ++ Model.pathChars Q')) =
          Routes.matchItems (s.map Routes.RItem.lit ++ Model.itemsOf Q')
            (s ++ Model.pathChars Q') from by simp [Routes.matchItems]]
      rw [matchItems_litPrefix, ih h.2]
      rfl
    | dyn n v =>
      obtain ⟨_, hvne, hvchar⟩ := wfSeg_dyn h.1
      obtain ⟨c, v', rfl⟩ : ∃ c v', v = c :: v' := by
        cases v with
        | nil => exact absurd rfl hvne
        | cons c v' => exact ⟨c, v', rfl⟩
      show Routes.matchItems
          (Routes.RItem.lit '/' :: (Routes.RItem.group :: Model.itemsOf Q'))
          ('/' :: ((c :: v') ++ Model.pathChars Q')) = _
      rw [show Routes.matchItems
          (Routes.RItem.lit '/' :: (Routes.RItem.group :: Model.itemsOf Q'))
          ('/' :: ((c :: v') ++ Model.pathChars Q')) =
          Routes.matchItems (Routes.RItem.group :: Model.itemsOf Q')
            ((c :: v') ++ Model.pathChars Q') from by simp [Routes.matchItems]]
      have htw : (((c :: v') ++ Model.pathChars Q').takeWhile (· ≠ '/')) =
          c :: v' := by
        apply takeWhile_append_of_all
        · intro d hd
          simp only [decide_eq_true_eq]
          exact (hvchar d hd).1
        · intro d hd
          rw [pathChars_head Q' d hd]
          decide
      rw [show Routes.matchItems (Routes.RItem.group :: Model.itemsOf Q')
          ((c :: v') ++ Model.pathChars Q') =
          Routes.tryGroup (Routes.matchItems (Model.itemsOf Q'))
            (((c :: v') ++ Model.pathChars Q').takeWhile (· ≠ '/')).length
            ((c :: v') ++ Model.pathChars Q') from rfl]
      rw [htw]
      have hdrop : ((c :: v') ++ Model.pathChars Q').drop (v'.length + 1) =
          Model.pathChars Q' := by
        rw [show ((c :: v') ++ Model.pathChars Q') =
            (c :: v') ++ Model.pathChars Q' from rfl]
        rw [show v'.length + 1 = (c :: v').length from by simp]
        exact List.drop_left _ _
      have htake : ((c :: v') ++ Model.pathChars Q').take (v'.length + 1) =
          c :: v' := by
        rw [show v'.length + 1 = (c :: v').length from by simp]
        exact List.take_left _ _
      show Routes.tryGroup (Routes.matchItems (Model.itemsOf Q'))
          (v'.length + 1) ((c :: v') ++ Model.pathChars Q') = _
      rw [show Routes.tryGroup (Routes.matchItems (Model.itemsOf Q'))
          (v'.length + 1) ((c :: v') ++ Model.pathChars Q') =
          (match Routes.matchItems (Model.itemsOf Q')
              (((c :: v') ++ Model.pathChars Q').drop (v'.length + 1)) with
            | some caps =>
              some ((((c :: v') ++ Model.pathChars Q').take (v'.length + 1)) :: caps)
            | none =>
              Routes.tryGroup (Routes.matchItems (Model.itemsOf Q')) v'.length
                ((c :: v') ++ Model.pathChars Q')) from rfl]
      rw [hdrop, ih h.2, htake]
      rfl

end Qlara

namespace Qlara

theorem pathChars_no_qmark (Q : List Model.VSeg) (h : Q.all Model.wfSeg = true) :
    ∀ c ∈ Model.pathChars Q, c ≠ '?' := by
  induction Q with
  | nil => intro c hc; simp [Model.pathChars] at hc
  | cons seg Q' ih =>
    simp only [List.all_cons, Bool.and_eq_true] at h
    intro c hc
    rw [show Model.pathChars (seg :: Q') =
        '/' :: (Model.pathSegChars seg ++ Model.pathChars Q') from rfl] at hc
    rcases List.mem_cons.mp hc with rfl | hc
    · decide
    rcases List.mem_append.mp hc with hc | hc
    · cases seg with
      | lit s => exact (wfSeg_lit h.1).2 c hc |>.2.2
      | dyn n v => exact ((wfSeg_dyn h.1).2.2 c hc).2
    · exact ih h.2 c hc

theorem pathChars_getLast (Q : List Model.VSeg) (h : Q.all Model.wfSeg = true) :
    ∀ d, (Model.pathChars Q).getLast? = some d → d ≠ '/' := by
  induction Q with
  | nil => intro d hd; simp [Model.pathChars] at hd
  | cons seg Q' ih =>
    simp only [List.all_cons, Bool.and_eq_true] at h
    intro d hd
    rw [show Model.pathChars (seg :: Q') =
        '/' :: (Model.pathSegChars seg ++ Model.pathChars Q') from rfl] at hd
    cases hQ' : Model.pathChars Q' with
    | nil =>
      rw [hQ'] at hd
      simp only [List.append_nil] at hd
      have hseg : Model.pathSegChars seg ≠ [] := by
        cases seg with
        | lit s => exact (wfSeg_lit h.1).1
        | dyn n v => exact (wfSeg_dyn h.1).2.1
      rw [List.getLast?_cons, List.getLast?_eq_getLast _ hseg] at hd
      have hm : d ∈ Model.pathSegChars seg := by
        rw [show d = (Model.pathSegChars seg).getLast hseg from by
          exact Option.some.inj hd |>.symm]
        exact List.getLast_mem hseg
      cases seg with
      | lit s => exact ((wfSeg_lit h.1).2 d hm).1
      | dyn n v => exact ((wfSeg_dyn h.1).2.2 d hm).1
    | cons x xs =>
      have hne : Model.pathChars Q' ≠ [] := by rw [hQ']; simp
      rw [show ('/' :: (Model.pathSegChars seg ++ Model.pathChars Q')) =
          ('/' :: Model.pathSegChars seg) ++ Model.pathChars Q' from
          (List.cons_append _ _ _).symm,
        List.getLast?_append_of_ne_nil _ hne] at hd
      exact ih h.2 d hd

theorem cleanUrl_path (Q : List Model.VSeg) (h : Model.wfPat Q = true) :
    Routes.cleanUrl (Model.pathChars Q) = Model.pathChars Q := by
  have hwf : Q.all Model.wfSeg = true := by
    simp only [Model.wfPat, Bool.and_eq_true] at h
    exact h.2
  have hQne : Q ≠ [] := by
    simp only [Model.wfPat, Bool.and_eq_true] at h
    intro hnil; subst hnil; simp at h
  have hpne : Model.pathChars Q ≠ [] := by
    cases Q with
    | nil => exact absurd rfl hQne
    | cons seg Q' => simp [Model.pathChars]
  have htw : (Model.pathChars Q).takeWhile (· ≠ '?') = Model.pathChars Q := by
    apply takeWhile_all
    intro c hc
    simp only [decide_eq_true_eq]
    exact pathChars_no_qmark Q hwf c hc
  have hdrop : dropOneTrailing '/' (Model.pathChars Q) = Model.pathChars Q := by
    unfold dropOneTrailing
    rw [if_neg]
    intro hcontra
    exact pathChars_getLast Q hwf '/' hcontra rfl
  simp only [Routes.cleanUrl, htw, hdrop, if_neg hpne]

theorem dynValues_length (Q : List Model.VSeg) :
    (Model.dynValues Q).length = (Model.dynNames Q).length := by
  induction Q with
  | nil => rfl
  | cons seg Q' ih =>
    cases seg <;> simp [Model.dynValues, Model.dynNames, ih]

theorem bindParams_zip (names : List JsStr) :
    ∀ caps : List JsStr, names.length ≤ caps.length →
      Routes.bindParams names caps = names.zip (caps.map some) := by
  induction names with
  | nil => intro caps _; rfl
  | cons n names ih =>
    intro caps hlen
    cases caps with
    | nil => simp at hlen
    | cons c cs =>
      simp only [List.length_cons, Nat.add_le_add_iff_right] at hlen
      simp only [Routes.bindParams, List.mapIdx_cons, List.get?_cons_zero,
        List.map_cons, List.zip_cons_cons]
      rw [show (List.mapIdx (fun i x => (x, (c :: cs).get? (i + 1))) names) =
          Routes.bindParams names cs from by
        simp only [Routes.bindParams]
        rfl]
      rw [ih cs hlen]

theorem epn_patChars (Q : List Model.VSeg) (h : Q.all Model.wfSeg = true) :
    Routes.extractParamNames (Model.patChars Q) = Model.dynNames Q := by
  exact extract_patChars Q h _ (Nat.le_refl _)

theorem parse_compileRoute (Q : List Model.VSeg) (h : Q.all Model.wfSeg = true) :
    Routes.parseRegex (Routes.compileRoute (Model.patChars Q)).regex =
      some (Model.itemsOf Q) := by
  show Routes.parseRegex (Routes.patternToRegex (Model.patChars Q)) = _
  rw [show Routes.patternToRegex (Model.patChars Q) =
      '^' :: (Routes.replaceParamsWithGroups
        (Routes.escapeChars (Model.patChars Q)) ++ ['$']) from rfl]
  rw [show Routes.parseRegex ('^' :: (Routes.replaceParamsWithGroups
      (Routes.escapeChars (Model.patChars Q)) ++ ['$'])) =
      Routes.parseItems (Routes.replaceParamsWithGroups
        (Routes.escapeChars (Model.patChars Q)) ++ ['$']) from rfl]
  exact parse_patChars Q h _ (Nat.le_refl _)

end Qlara

namespace Qlara

theorem tryGroup_some (cont : JsStr → Option (List JsStr)) :
    ∀ (k : Nat) (xs : JsStr) (caps : List JsStr),
      Routes.tryGroup cont k xs = some caps →
      ∃ t caps2 ys, caps = t :: caps2 ∧ cont ys = some caps2 := by
  intro k
  induction k with
  | zero => intro xs caps h; simp [Routes.tryGroup] at h
  | succ k ih =>
    intro xs caps h
    simp only [Routes.tryGroup] at h
    cases hc : cont (xs.drop (k + 1)) with
    | some caps0 =>
      rw [hc] at h
      exact ⟨xs.take (k + 1), caps0, xs.drop (k + 1),
        (Option.some.inj h).symm, hc⟩
    | none =>
      rw [hc] at h
      exact ih xs caps h

theorem matchItems_caps_length :
    ∀ (items : List Routes.RItem) (xs : JsStr) (caps : List JsStr),
      Routes.matchItems items xs = some caps →
      caps.length = items.count Routes.RItem.group := by
  intro items
  induction items with
  | nil =>
    intro xs caps h
    simp only [Routes.matchItems] at h
    split at h
    · rw [← Option.some.inj h]; rfl
    · exact absurd h (by simp)
  | cons i rs ih =>
    cases i with
    | lit c =>
      intro xs caps h
      cases xs with
      | nil => simp [Routes.matchItems] at h
      | cons x xs2 =>
        simp only [Routes.matchItems] at h
        split at h
        · rw [ih xs2 caps h]
          simp [List.count_cons]
        · exact absurd h (by simp)
    | group =>
      intro xs caps h
      obtain ⟨t, caps2, ys, rfl, hys⟩ :=
        tryGroup_some (Routes.matchItems rs) _ xs caps h
      simp only [List.length_cons, List.count_cons]
      rw [ih ys caps2 hys]
      simp

theorem count_group_map_lit (s : JsStr) :
    (s.map Routes.RItem.lit).count Routes.RItem.group = 0 := by
  induction s with
  | nil => rfl
  | cons c s ih => simp [List.count_cons, ih]

theorem itemsOf_count_group (Q : List Model.VSeg) :
    (Model.itemsOf Q).count Routes.RItem.group = (Model.dynNames Q).length := by
  induction Q with
  | nil => rfl
  | cons seg Q' ih =>
    cases seg with
    | lit s =>
      show (Routes.RItem.lit '/' ::
        (s.map Routes.RItem.lit ++ Model.itemsOf Q')).count Routes.RItem.group = _
      simp [List.count_cons, List.count_append, count_group_map_lit, ih,
        Model.dynNames]
    | dyn n v =>
      show (Routes.RItem.lit '/' ::
        ([Routes.RItem.group] ++ Model.itemsOf Q')).count Routes.RItem.group = _
      simp [List.count_cons, List.count_append, ih, Model.dynNames]

end Qlara

namespace Qlara

/-- C2: for every well-formed route pattern with `n` dynamic `:name` segments
(distinct names, as a JavaScript record requires), compiling it yields exactly
those `n` parameter names in order of first appearance, and matching a request
path with the same segment structure succeeds and binds each name to the
corresponding path-segment value, in declaration order. -/
theorem c2_compile_and_match_bind_params (Q : List Model.VSeg)
    (h : Model.wfPat Q = true) (_hnd : (Model.dynNames Q).Nodup) :
    (Routes.compileRoute (Model.patChars Q)).paramNames = Model.dynNames Q ∧
    (Routes.compileRoute (Model.patChars Q)).paramNames.length =
      Model.dynCount Q ∧
    Routes.matchRoute (Model.pathChars Q)
        [Routes.compileRoute (Model.patChars Q)] =
      some { route := Routes.compileRoute (Model.patChars Q)
             params := (Model.dynNames Q).zip ((Model.dynValues Q).map some) } := by
  have hwf : Q.all Model.wfSeg = true := by
    simp only [Model.wfPat, Bool.and_eq_true] at h
    exact h.2
  have hwfp : Model.wfPat Q = true := h
  have hp : (Routes.compileRoute (Model.patChars Q)).paramNames =
      Model.dynNames Q := epn_patChars Q hwf
  refine ⟨hp, by rw [hp]; rfl, ?_⟩
  have hj : Routes.jsMatch (Routes.compileRoute (Model.patChars Q)).regex
      (Model.pathChars Q) = some (Model.dynValues Q) := by
    unfold Routes.jsMatch
    rw [parse_compileRoute Q hwf]
    exact match_patChars Q hwf
  have hb : Routes.bindParams
      (Routes.compileRoute (Model.patChars Q)).paramNames
      (Model.dynValues Q) =
      (Model.dynNames Q).zip ((Model.dynValues Q).map some) := by
    rw [hp]
    exact bindParams_zip _ _ (Nat.le_of_eq (dynValues_length Q).symm)
  simp only [Routes.matchRoute]
  rw [cleanUrl_path Q hwfp]
  simp only [Routes.matchRouteLoop]
  rw [hj]
  show some ({ route := Routes.compileRoute (Model.patChars Q)
               params := Routes.bindParams
                 (Routes.compileRoute (Model.patChars Q)).paramNames
                 (Model.dynValues Q) } : Routes.RouteMatch) = _
  rw [hb]

/-- C2 witness: the theorem applied to the pattern `/product/:id` instantiated
at `id = 42`. -/
theorem c2_compile_and_match_bind_params_witness :
    Model.wfPat Examples.exProductId = true ∧
    (Model.dynNames Examples.exProductId).Nodup ∧
    ((Routes.compileRoute (Model.patChars Examples.exProductId)).paramNames =
        Model.dynNames Examples.exProductId ∧
      (Routes.compileRoute
          (Model.patChars Examples.exProductId)).paramNames.length =
        Model.dynCount Examples.exProductId ∧
      Routes.matchRoute (Model.pathChars Examples.exProductId)
          [Routes.compileRoute (Model.patChars Examples.exProductId)] =
        some { route := Routes.compileRoute (Model.patChars Examples.exProductId)
               params := (Model.dynNames Examples.exProductId).zip
                 ((Model.dynValues Examples.exProductId).map some) }) :=
  ⟨by decide, by decide,
    c2_compile_and_match_bind_params Examples.exProductId (by decide) (by decide)⟩

/-- C10: for every well-formed route pattern, the generated regex parses into
atoms holding exactly `extractParamNames(pattern).length` capture groups, and
whenever `matchRoute` succeeds against that route every parameter in the
returned params map is bound to a defined (non-`undefined`) captured string. -/
theorem c10_groups_match_param_names (Q : List Model.VSeg)
    (h : Model.wfPat Q = true) :
    (∃ items,
      Routes.parseRegex (Routes.compileRoute (Model.patChars Q)).regex =
          some items ∧
        items.count Routes.RItem.group =
          (Routes.compileRoute (Model.patChars Q)).paramNames.length) ∧
    (∀ url m,
      Routes.matchRoute url [Routes.compileRoute (Model.patChars Q)] = some m →
      ∀ pair ∈ m.params, pair.2.isSome = true) := by
  have hwf : Q.all Model.wfSeg = true := by
    simp only [Model.wfPat, Bool.and_eq_true] at h
    exact h.2
  have hp : (Routes.compileRoute (Model.patChars Q)).paramNames =
      Model.dynNames Q := epn_patChars Q hwf
  constructor
  · exact ⟨Model.itemsOf Q, parse_compileRoute Q hwf, by
      rw [itemsOf_count_group, hp]⟩
  · intro url m hm pair hpair
    simp only [Routes.matchRoute, Routes.matchRouteLoop] at hm
    cases hj : Routes.jsMatch (Routes.compileRoute (Model.patChars Q)).regex
        (Routes.cleanUrl url) with
    | none => rw [hj] at hm; exact absurd hm (by simp)
    | some caps =>
      rw [hj] at hm
      have hmi : Routes.matchItems (Model.itemsOf Q) (Routes.cleanUrl url) =
          some caps := by
        simp only [Routes.jsMatch, parse_compileRoute Q hwf] at hj
        exact hj
      have hlen : caps.length = (Model.dynNames Q).length := by
        rw [matchItems_caps_length (Model.itemsOf Q) _ caps hmi,
          itemsOf_count_group]
      have hm2 : m = { route := Routes.compileRoute (Model.patChars Q)
                       params := Routes.bindParams
                         (Routes.compileRoute (Model.patChars Q)).paramNames
                         caps } := (Option.some.inj hm).symm
      rw [hm2] at hpair
      simp only [hp] at hpair
      rw [bindParams_zip _ _ (Nat.le_of_eq hlen.symm)] at hpair
      obtain ⟨a, b⟩ := pair
      have hmem := List.of_mem_zip hpair
      obtain ⟨x, _, hx⟩ := List.mem_map.mp hmem.2
      rw [← hx]
      rfl

/-- C10 witness: the theorem applied to the pattern `/blog/:year/:slug`. -/
theorem c10_groups_match_param_names_witness :
    Model.wfPat Examples.exBlog = true ∧
    ((∃ items,
      Routes.parseRegex (Routes.compileRoute (Model.patChars Examples.exBlog)).regex =
          some items ∧
        items.count Routes.RItem.group =
          (Routes.compileRoute (Model.patChars Examples.exBlog)).paramNames.length) ∧
    (∀ url m,
      Routes.matchRoute url
          [Routes.compileRoute (Model.patChars Examples.exBlog)] = some m →
      ∀ pair ∈ m.params, pair.2.isSome = true)) :=
  ⟨by decide, c10_groups_match_param_names Examples.exBlog (by decide)⟩

end Qlara
